import Mathlib

/-!
Verification of the two data-structure engines of the `data_structures`
repository: the disjoint-set (union-find) forest and the generic segment
tree, shallowly embedded from the C sources under `src/ext/`.

Conventions of the embedding:
* C machine integers are modelled as `Nat`/`Int`; `size_t` indices are `Nat`.
* The C `while` loops of `find` (path halving) and the recursions of the
  segment tree are modelled with an explicit fuel argument; exhausting the
  fuel is reported as a `nonTermination` outcome, which is proved
  unreachable from valid states.
* Ruby exceptions are modelled with `Except`; every operation is a state
  transformer returning `Except err result × state` so that the state at
  raise time is observable.
* The Ruby lambdas `combine` and `single_cell_array_val` are host-supplied
  callbacks.  `combine` is stored in the structure as a pure function (as
  claims about query results assume a pure combine).  The `leaf_value`
  lambda's behaviour may differ between calls (it is a closure over client
  state), so each call site (`setup`, `update_at`) receives the lambda's
  current behaviour as an explicit function argument.
-/

namespace DS

/-! ## Dynamic array of longs
(`src/ext/data_structures_rmolinari/c_disjoint_union/disjoint_union.c`,
`initArray`/`insertArray`: a growable array with a default value for slots
materialised by growth.) -/

/-- The C `Array` struct: backing storage plus the default value used to fill
slots created by growth.  The C `size` field is `array.length`. -/
structure CArr where
  array : List Int
  default_val : Int
deriving DecidableEq

/-- `initArray`: allocate `initial_size` slots, all set to `default_val`. -/
def initArray (initial_size : Nat) (default_val : Int) : CArr :=
  ⟨List.replicate initial_size default_val, default_val⟩

/-- The growth loop of `insertArray`: starting from the current size, repeat
`new_size = 8 * new_size / 5 + 8` until `new_size > index`. -/
def growSize (s index : Nat) : Nat :=
  if s ≤ index then growSize (8 * s / 5 + 8) index else s
termination_by index + 1 - s
decreasing_by
  have h8 : s ≤ 8 * s / 5 := Nat.le_div_iff_mul_le (by norm_num) |>.mpr (by omega)
  omega

/-- `insertArray`: write `element` at position `index`, first growing the
array when `index` is out of range; every slot added by growth is filled
with the stored default value before the write. -/
def insertArray (a : CArr) (index : Nat) (element : Int) : CArr :=
  if a.array.length ≤ index then
    ⟨(a.array ++
        List.replicate (growSize a.array.length index - a.array.length) a.default_val).set
        index element,
      a.default_val⟩
  else ⟨a.array.set index element, a.default_val⟩

/-! ## Disjoint-set forest
(`disjoint_union.c`: `present_p`, `add_new_element`, `find`, `link_roots`,
`unite`, `disjoint_union_alloc`, `disjoint_union_init`.) -/

/-- The error taxonomy raised by the disjoint-union operations.
`nonTermination` is not a C error: it models the `find` loop failing to
terminate (impossible from valid states, proved below). -/
inductive DUErr where
  | duplicateElement
  | unknownElement
  | selfUnion
  | nonTermination
deriving DecidableEq

/-- The `disjoint_union_data` struct: parent forest, ranks, subset count. -/
structure DU where
  forest : CArr
  rank : CArr
  subset_count : Nat
deriving DecidableEq

/-- `DEFAULT_ARRAY_VAL`: the sentinel parent marking a never-added slot. -/
def DEFAULT_ARRAY_VAL : Int := -1

/-- `present_p`: the element is in the universe iff its slot exists and does
not hold the sentinel parent. -/
def present_p (du : DU) (element : Nat) : Bool :=
  decide (element < du.forest.array.length) &&
    decide (du.forest.array.getD element du.forest.default_val ≠ DEFAULT_ARRAY_VAL)

/-- `add_new_element` (= `make_set`): raises on a present element, otherwise
writes `forest[element] = element`, `rank[element] = 0` (growing both arrays)
and increments `subset_count`. -/
def add_new_element (du : DU) (element : Nat) : Except DUErr Unit × DU :=
  if present_p du element then (.error .duplicateElement, du)
  else
    (.ok (),
      { forest := insertArray du.forest element (element : Int)
        rank := insertArray du.rank element 0
        subset_count := du.subset_count + 1 })

/-- The path-halving loop of `find`:
`while (d[d[x]] != d[x]) { x = d[x] = d[d[x]]; } return d[x];`
modelled with fuel; a `long` read as an index is taken through `Int.toNat`. -/
def findLoop : List Int → Nat → Nat → Option (List Int × Nat)
  | _, _, 0 => none
  | d, x, fuel + 1 =>
    let px := d.getD x 0
    let ppx := d.getD px.toNat 0
    if ppx = px then some (d, px.toNat)
    else findLoop (d.set x ppx) ppx.toNat fuel

/-- `find`: membership check, then path halving to the root. -/
def find (du : DU) (element : Nat) : Except DUErr Nat × DU :=
  if !present_p du element then (.error .unknownElement, du)
  else
    match findLoop du.forest.array element (du.forest.array.length + 1) with
    | some (d', r) => (.ok r, { du with forest := ⟨d', du.forest.default_val⟩ })
    | none => (.error .nonTermination, du)

/-- `link_roots`: union by rank of two roots, decrementing `subset_count`. -/
def link_roots (du : DU) (elt1 elt2 : Nat) : DU :=
  if du.rank.array.getD elt1 0 > du.rank.array.getD elt2 0 then
    { du with
      forest := ⟨du.forest.array.set elt2 (elt1 : Int), du.forest.default_val⟩
      subset_count := du.subset_count - 1 }
  else if du.rank.array.getD elt1 0 = du.rank.array.getD elt2 0 then
    { du with
      forest := ⟨du.forest.array.set elt2 (elt1 : Int), du.forest.default_val⟩
      rank := ⟨du.rank.array.set elt1 (du.rank.array.getD elt1 0 + 1), du.rank.default_val⟩
      subset_count := du.subset_count - 1 }
  else
    { du with
      forest := ⟨du.forest.array.set elt1 (elt2 : Int), du.forest.default_val⟩
      subset_count := du.subset_count - 1 }

/-- `unite`: membership checks, self-union check, then the two finds and, if
they yielded distinct roots, `link_roots`. -/
def unite (du : DU) (elt1 elt2 : Nat) : Except DUErr Unit × DU :=
  if !present_p du elt1 then (.error .unknownElement, du)
  else if !present_p du elt2 then (.error .unknownElement, du)
  else if elt1 = elt2 then (.error .selfUnion, du)
  else
    match find du elt1 with
    | (Except.ok root1, du1) =>
      match find du1 elt2 with
      | (Except.ok root2, du2) =>
        if root1 = root2 then (.ok (), du2)
        else (.ok (), link_roots du2 root1 root2)
      | (Except.error e, du2) => (.error e, du2)
    | (Except.error e, du1) => (.error e, du1)

/-- `disjoint_union_alloc`: forest and rank arrays of 100 slots filled with
the defaults `-1` and `0`; no elements yet. -/
def disjoint_union_alloc : DU :=
  ⟨initArray 100 (-1), initArray 100 0, 0⟩

/-- `disjoint_union_init`: `add_new_element` for each of `0 .. initial_size-1`. -/
def disjoint_union_init (initial_size : Nat) : DU :=
  (List.range initial_size).foldl (fun du i => (add_new_element du i).2)
    disjoint_union_alloc

/-! ## Operation sequences and the naive reference partition. -/

/-- One client-visible call to the disjoint union. -/
inductive DUOp where
  | makeSet (e : Nat)
  | findEl (e : Nat)
  | uniteEl (a b : Nat)
deriving DecidableEq

/-- Apply one operation to the C structure, keeping the state the operation
left behind (on an error, that state is the pre-call state). -/
def stepDU (du : DU) : DUOp → DU
  | .makeSet e => (add_new_element du e).2
  | .findEl e => (find du e).2
  | .uniteEl a b => (unite du a b).2

/-- Run a sequence of operations from a freshly constructed structure. -/
def runDU (n : Nat) (ops : List DUOp) : DU :=
  ops.foldl stepDU (disjoint_union_init n)

/-- The naive reference: each present element mapped to the label of its
subset (a plain association list, merged by relabelling). -/
abbrev Ref := List (Nat × Nat)

/-- Label of an element in the reference partition. -/
def refLookup (ref : Ref) (e : Nat) : Option Nat :=
  (ref.find? (fun p => p.1 == e)).map Prod.snd

/-- Presence in the reference partition. -/
def refPresent (ref : Ref) (e : Nat) : Bool :=
  (refLookup ref e).isSome

/-- The naive reference semantics of one operation: `makeSet` adds a fresh
singleton class, `uniteEl` relabels the second class to the first when both
elements are present and distinct, `findEl` changes nothing. -/
def refStep (ref : Ref) : DUOp → Ref
  | .makeSet e => if refPresent ref e then ref else ref ++ [(e, e)]
  | .findEl _ => ref
  | .uniteEl a b =>
    match refLookup ref a, refLookup ref b with
    | some la, some lb =>
      if a = b then ref
      else if la = lb then ref
      else ref.map (fun p => if p.2 = lb then (p.1, la) else p)
    | _, _ => ref

/-- Reference partition for the constructor: `0 .. n-1`, all singletons. -/
def refInit (n : Nat) : Ref :=
  (List.range n).map (fun i => (i, i))

/-- Run the reference semantics over a sequence of operations. -/
def runRef (n : Nat) (ops : List DUOp) : Ref :=
  ops.foldl refStep (refInit n)

/-- One step of the instrumented reference: also counts successful `makeSet`
calls (`k`, seeded with the constructor's `initial_size`) and `uniteEl` calls
that actually merged two distinct classes (`m`). -/
def stepKM (s : Ref × Nat × Nat) (op : DUOp) : Ref × Nat × Nat :=
  match op with
  | .makeSet e =>
    (refStep s.1 op, if refPresent s.1 e then s.2.1 else s.2.1 + 1, s.2.2)
  | .findEl _ => (s.1, s.2.1, s.2.2)
  | .uniteEl a b =>
    (refStep s.1 op, s.2.1,
      match refLookup s.1 a, refLookup s.1 b with
      | some la, some lb => if a ≠ b ∧ la ≠ lb then s.2.2 + 1 else s.2.2
      | _, _ => s.2.2)

/-- Number of successful `make_set` calls, the constructor's elements included. -/
def countK (n : Nat) (ops : List DUOp) : Nat :=
  (ops.foldl stepKM (refInit n, n, 0)).2.1

/-- Number of `unite` calls that actually merged two distinct subsets. -/
def countM (n : Nat) (ops : List DUOp) : Nat :=
  (ops.foldl stepKM (refInit n, n, 0)).2.2

/-- Whether a `uniteEl a b` call merges two distinct classes of the reference
partition (the increment of `m` in `stepKM`). -/
def uniteDelta (ref : Ref) (a b : Nat) : Nat :=
  match refLookup ref a, refLookup ref b with
  | some la, some lb => if a ≠ b ∧ la ≠ lb then 1 else 0
  | _, _ => 0

/-! ## Pure root computation and forest invariants (proof infrastructure). -/

/-- Pure iteration of parent pointers to the root (no path halving), with fuel. -/
def rootF (f : List Int) : Nat → Nat → Option Nat
  | _, 0 => none
  | x, fuel + 1 =>
    if f.getD x 0 = (x : Int) then some x
    else rootF f (f.getD x 0).toNat fuel

/-- The root of `x` in forest `f`, with canonical fuel. -/
def rootD (f : List Int) (x : Nat) : Option Nat :=
  rootF f x (f.length + 1)

/-- Presence judged from a bare forest list. -/
def presF (f : List Int) (e : Nat) : Prop :=
  e < f.length ∧ f.getD e 0 ≠ -1

instance (f : List Int) (e : Nat) : Decidable (presF f e) := by
  unfold presF; exact inferInstance

/-- Parent of `e` as a `Nat` index. -/
def fpar (f : List Int) (e : Nat) : Nat :=
  (f.getD e 0).toNat

/-- Rank of `e` as a `Nat`. -/
def rkN (rk : List Int) (e : Nat) : Nat :=
  (rk.getD e 0).toNat

/-- The structural forest invariant: parents of present elements are
non-negative present elements, ranks strictly increase along non-trivial
parent edges, and all ranks are bounded by `B`. -/
def Hfor (f rk : List Int) (B : Nat) : Prop :=
  ∀ e, presF f e →
    0 ≤ f.getD e 0 ∧ presF f (fpar f e) ∧
      (fpar f e ≠ e → rkN rk e < rkN rk (fpar f e)) ∧ rkN rk e ≤ B

/-- Parent edges respect the reference labelling. -/
def Hlab (f : List Int) (ref : Ref) : Prop :=
  ∀ e, presF f e → refLookup ref (fpar f e) = refLookup ref e

/-- Number of roots among the present elements. -/
def countRoots (f : List Int) : Nat :=
  ((List.range f.length).filter
    (fun e => decide (presF f e) && decide (f.getD e 0 = (e : Int)))).length

/-- The full coupling invariant between the C structure and the reference. -/
def Inv (du : DU) (ref : Ref) : Prop :=
  du.forest.default_val = -1 ∧
  du.rank.default_val = 0 ∧
  du.rank.array.length = du.forest.array.length ∧
  (∀ e, presF du.forest.array e ↔ refPresent ref e = true) ∧
  (∀ p ∈ ref, p.1 < du.forest.array.length ∧ refPresent ref p.2 = true) ∧
  (ref.map Prod.fst).Nodup ∧
  Hfor du.forest.array du.rank.array ref.length ∧
  Hlab du.forest.array ref ∧
  (∀ e, presF du.forest.array e → 0 ≤ du.rank.array.getD e 0) ∧
  (∀ e, presF du.forest.array e →
    rkN du.rank.array e + du.subset_count ≤ ref.length) ∧
  du.subset_count = countRoots du.forest.array ∧
  (∀ x y, presF du.forest.array x → presF du.forest.array y →
    (refLookup ref x = refLookup ref y ↔
      rootD du.forest.array x = rootD du.forest.array y))

/-! ## Segment tree
(`src/ext/c_segment_tree_template/segment_tree_template.c`.) -/

/-- The errors raised by the segment-tree operations.  `dataError` is
`Shared::DataError` (the range errors), `argError` is Ruby's `ArgError`
(invalid size), `internalLogicError` is `Shared::InternalLogicError`;
`nonTermination` models a non-terminating recursion (never reachable). -/
inductive STErr where
  | dataError
  | argError
  | internalLogicError
  | nonTermination
deriving DecidableEq

/-- The `segment_tree_data` struct.  The `tree` array is modelled as the heap
slice `Nat → V` it occupies; `combine` is the stored combine lambda (pure). -/
structure SegTree (V : Type) where
  tree : Nat → V
  combine : V → V → V
  identity : V
  size : Nat

/-- Pointwise update of a modelled heap slice. -/
def fset {V : Type} (t : Nat → V) (i : Nat) (v : V) : Nat → V :=
  fun j => if j = i then v else t j

/-- `midpoint` from `shared.c`. -/
def midpoint (left right : Nat) : Nat :=
  (left + right) / 2

/-- `left_child` from `shared.c` (`i << 1`). -/
def left_child (i : Nat) : Nat :=
  2 * i

/-- `right_child` from `shared.c` (`1 + (i << 1)`). -/
def right_child (i : Nat) : Nat :=
  2 * i + 1

/-- `TREE_ROOT` from `shared.h`. -/
def TREE_ROOT : Nat := 1

/-- `build`: recursively fill the implicit tree over `[tree_l, tree_r]`,
leaves from `lf`, inner nodes by combining the two freshly built children.
`fuel` bounds the recursion depth. -/
def buildF {V : Type} (cmb : V → V → V) (lf : Nat → V) :
    Nat → (Nat → V) → Nat → Nat → Nat → (Nat → V)
  | 0, tree, _, _, _ => tree
  | fuel + 1, tree, tree_idx, tree_l, tree_r =>
    if tree_l = tree_r then fset tree tree_idx (lf tree_l)
    else
      let t2 := buildF cmb lf fuel
        (buildF cmb lf fuel tree (left_child tree_idx) tree_l (midpoint tree_l tree_r))
        (right_child tree_idx) (midpoint tree_l tree_r + 1) tree_r
      fset t2 tree_idx (cmb (t2 (left_child tree_idx)) (t2 (right_child tree_idx)))

/-- `create_segment_tree`: the freshly allocated struct before `setup`; its
fields are uninitialised memory, modelled by the arbitrary `junk`/`jc`. -/
def create_segment_tree {V : Type} (junk : V) (jc : V → V → V) : SegTree V :=
  ⟨fun _ => junk, jc, junk, 0⟩

/-- `setup`: store the callbacks and identity, validate the size (negative
`Fixnum` → `DataError` inside `checked_nonneg_fixnum`, zero → `ArgError`),
then allocate the tree (`calloc`, its fill modelled by `junk`) and build. -/
def setup {V : Type} (st : SegTree V) (cmb : V → V → V) (lf : Nat → V) (size : Int)
    (ident : V) (junk : V) : Except STErr Unit × SegTree V :=
  let st1 := { st with combine := cmb, identity := ident }
  if size < 0 then (.error .dataError, st1)
  else
    let st2 := { st1 with size := size.toNat }
    if size.toNat = 0 then (.error .argError, st2)
    else
      (.ok (),
        { st2 with
          tree := buildF cmb lf size.toNat (fun _ => junk) TREE_ROOT 0 (size.toNat - 1) })

/-- `determine_val`: recursive range query over the node covering
`[tree_l, tree_r]`, threading the (never written) structure state. -/
def determine_val {V : Type} :
    Nat → SegTree V → Nat → Nat → Nat → Nat → Nat → Except STErr V × SegTree V
  | 0, st, _, _, _, _, _ => (.error .nonTermination, st)
  | fuel + 1, st, tree_idx, left, right, tree_l, tree_r =>
    if left = tree_l ∧ right = tree_r then (.ok (st.tree tree_idx), st)
    else
      if right ≤ midpoint tree_l tree_r then
        determine_val fuel st (left_child tree_idx) left right tree_l
          (midpoint tree_l tree_r)
      else if midpoint tree_l tree_r + 1 ≤ left then
        determine_val fuel st (right_child tree_idx) left right
          (midpoint tree_l tree_r + 1) tree_r
      else
        match determine_val fuel st (left_child tree_idx) left
            (midpoint tree_l tree_r) tree_l (midpoint tree_l tree_r) with
        | (Except.ok v1, st1) =>
          match determine_val fuel st1 (right_child tree_idx)
              (midpoint tree_l tree_r + 1) right (midpoint tree_l tree_r + 1) tree_r with
          | (Except.ok v2, st2) => (.ok (st2.combine v1 v2), st2)
          | (Except.error e, st2) => (.error e, st2)
        | (Except.error e, st1) => (.error e, st1)

/-- `segment_tree_query_on`: the `c_right >= size` bounds check comes first,
then the `left > right` empty-interval return of `identity`, then the
recursive descent from the root. -/
def query_on {V : Type} (st : SegTree V) (left right : Nat) :
    Except STErr V × SegTree V :=
  if st.size ≤ right then (.error .dataError, st)
  else if right < left then (.ok st.identity, st)
  else determine_val st.size st TREE_ROOT left right 0 (st.size - 1)

/-- `update_val_at`: descend to the leaf of `idx`, refresh it from the
current `leaf_value` behaviour `lf`, and recombine every ancestor on the way
back up; a mismatched leaf raises `InternalLogicError`. -/
def update_val_at {V : Type} (lf : Nat → V) :
    Nat → SegTree V → Nat → Nat → Nat → Nat → Except STErr Unit × SegTree V
  | 0, st, _, _, _, _ => (.error .nonTermination, st)
  | fuel + 1, st, idx, tree_idx, tree_l, tree_r =>
    if tree_l = tree_r then
      if tree_l ≠ idx then (.error .internalLogicError, st)
      else (.ok (), { st with tree := fset st.tree tree_idx (lf tree_l) })
    else
      match (if idx ≤ midpoint tree_l tree_r then
          update_val_at lf fuel st idx (left_child tree_idx) tree_l
            (midpoint tree_l tree_r)
        else
          update_val_at lf fuel st idx (right_child tree_idx)
            (midpoint tree_l tree_r + 1) tree_r) with
      | (Except.ok _, st1) =>
        (.ok (),
          { st1 with
            tree := fset st1.tree tree_idx
              (st1.combine (st1.tree (left_child tree_idx))
                (st1.tree (right_child tree_idx))) })
      | (Except.error e, st1) => (.error e, st1)

/-- `segment_tree_update_at`: bounds check, then the recursive update from
the root, `lf` being the current behaviour of the stored leaf lambda. -/
def update_at {V : Type} (st : SegTree V) (idx : Nat) (lf : Nat → V) :
    Except STErr Unit × SegTree V :=
  if st.size ≤ idx then (.error .dataError, st)
  else update_val_at lf st.size st idx TREE_ROOT 0 (st.size - 1)

/-- One `update_at` call together with its ghost: the array of most recent
leaf values (updated only when the call succeeded). -/
def stepST {V : Type} (p : SegTree V × (Nat → V)) (u : Nat × (Nat → V)) :
    SegTree V × (Nat → V) :=
  match update_at p.1 u.1 u.2 with
  | (Except.ok _, st') => (st', Function.update p.2 u.1 (u.2 u.1))
  | (Except.error _, st') => (st', p.2)

/-- Run a sequence of `update_at` calls (index and current leaf-lambda
behaviour for each) from a built tree whose leaves were built from `lf`. -/
def runST {V : Type} (st0 : SegTree V) (lf : Nat → V)
    (updates : List (Nat × (Nat → V))) : SegTree V × (Nat → V) :=
  updates.foldl stepST (st0, lf)

/-- Membership of node `j` in the implicit subtree rooted at node `t`. -/
def inSubtree (t j : Nat) : Prop :=
  ∃ k, j / 2 ^ k = t

/-- The left-to-right fold of the leaf values over `[l, r]` with `cmb`:
`cmb (cmb (... (cmb (g l) (g (l+1))) ...)) (g r)`. -/
def rangeFold {V : Type} (cmb : V → V → V) (g : Nat → V) (l r : Nat) : V :=
  (List.range' (l + 1) (r - l)).foldl (fun acc i => cmb acc (g i)) (g l)

/-- The tree rooted at node `t` correctly represents `[l, r]`: leaves hold
the current array values `a`, inner nodes hold the combine of their children. -/
inductive BuiltOk {V : Type} (cmb : V → V → V) (a : Nat → V) (tree : Nat → V) :
    Nat → Nat → Nat → Prop
  | leaf (t l : Nat) : tree t = a l → BuiltOk cmb a tree t l l
  | node (t l r : Nat) : l < r →
      BuiltOk cmb a tree (left_child t) l (midpoint l r) →
      BuiltOk cmb a tree (right_child t) (midpoint l r + 1) r →
      tree t = cmb (tree (left_child t)) (tree (right_child t)) →
      BuiltOk cmb a tree t l r

/-! ## The CC-vector storage variant
(`src/ext/c_disjoint_union/disjoint_union.c` together with
`src/ext/dynamic_array.h`): parents and ranks stored together in a vector of
`data_pair`s grown by `set_vec_elt`. -/

/-- The `data_pair` struct. -/
structure DataPair where
  parent : Int
  rank : Int
deriving DecidableEq

/-- `make_data_pair`. -/
def make_data_pair (parent rank : Int) : DataPair :=
  ⟨parent, rank⟩

/-- `default_pair` (`DEFAULT_PARENT = -1`, `DEFAULT_RANK = 0`). -/
def default_pair : DataPair :=
  ⟨-1, 0⟩

/-- The CC library's `resize`: appended slots are NOT initialised; the
residual memory they hold is modelled by the arbitrary value `g`. -/
def ccResize (g : DataPair) (v : List DataPair) (n : Nat) : List DataPair :=
  if n ≤ v.length then v.take n else v ++ List.replicate (n - v.length) g

/-- `set_vec_elt` from `dynamic_array.h`: on growth it resizes to
`index + 1` and then fills positions `sz + 1 .. index` (note: starting at
`sz + 1`, not `sz`) with the default value before writing `val` at `index`. -/
def set_vec_elt (g : DataPair) (v : List DataPair) (index : Nat) (val : DataPair) :
    List DataPair :=
  if v.length ≤ index then
    (((List.range' (v.length + 1) (index - v.length)).foldl
        (fun acc i => acc.set i default_pair) (ccResize g v (index + 1)))).set index val
  else v.set index val

/-- The `du_data` struct of the CC-vector variant. -/
structure DUCC where
  pairs : List DataPair
  subset_count : Nat
deriving DecidableEq

/-- `create_disjoint_union`: an empty vector, zero subsets. -/
def create_disjoint_union : DUCC :=
  ⟨[], 0⟩

/-- `present_p` of the CC-vector variant. -/
def present_p_cc (du : DUCC) (element : Nat) : Bool :=
  decide (element < du.pairs.length) &&
    decide ((du.pairs.getD element default_pair).parent ≠ DEFAULT_ARRAY_VAL)

/-- `add_new_element` of the CC-vector variant. -/
def add_new_element_cc (g : DataPair) (du : DUCC) (element : Nat) :
    Except DUErr Unit × DUCC :=
  if present_p_cc du element then (.error .duplicateElement, du)
  else
    (.ok (),
      ⟨set_vec_elt g du.pairs element (make_data_pair (element : Int) 0),
        du.subset_count + 1⟩)

end DS

/-! # Theorems -/

namespace DS

deriving instance DecidableEq for Except

/-! ## Arithmetic helpers for the implicit binary tree. -/

theorem midpoint_lb (l r : Nat) (h : l ≤ r) : l ≤ midpoint l r := by
  unfold midpoint; omega

theorem midpoint_lt (l r : Nat) (h : l < r) : midpoint l r < r := by
  unfold midpoint; omega

theorem inSubtree_self (t : Nat) : inSubtree t t :=
  ⟨0, by simp⟩

theorem inSubtree_of_left {t j : Nat} (h : inSubtree (left_child t) j) : inSubtree t j := by
  obtain ⟨k, hk⟩ := h
  refine ⟨k + 1, ?_⟩
  rw [pow_succ, ← Nat.div_div_eq_div_mul, hk]
  unfold left_child
  omega

theorem inSubtree_of_right {t j : Nat} (h : inSubtree (right_child t) j) : inSubtree t j := by
  obtain ⟨k, hk⟩ := h
  refine ⟨k + 1, ?_⟩
  rw [pow_succ, ← Nat.div_div_eq_div_mul, hk]
  unfold right_child
  omega

theorem le_of_inSubtree {t j : Nat} (h : inSubtree t j) : t ≤ j := by
  obtain ⟨k, hk⟩ := h
  calc t = j / 2 ^ k := hk.symm
    _ ≤ j := Nat.div_le_self _ _

theorem not_inSubtree_left_self {t : Nat} (ht : 1 ≤ t) : ¬ inSubtree (left_child t) t := by
  intro h
  have := le_of_inSubtree h
  unfold left_child at this
  omega

theorem not_inSubtree_right_self {t : Nat} (ht : 1 ≤ t) : ¬ inSubtree (right_child t) t := by
  intro h
  have := le_of_inSubtree h
  unfold right_child at this
  omega

theorem div_pow_split (a b c : Nat) (h : b ≤ c) : a / 2 ^ c = a / 2 ^ b / 2 ^ (c - b) := by
  rw [Nat.div_div_eq_div_mul, ← pow_add]
  have hbc : b + (c - b) = c := by omega
  rw [hbc]

theorem div_pow_le_div_two (a d : Nat) (hd : 1 ≤ d) : a / 2 ^ d ≤ a / 2 := by
  apply Nat.div_le_div_left
  · calc (2 : Nat) = 2 ^ 1 := (pow_one 2).symm
      _ ≤ 2 ^ d := Nat.pow_le_pow_right (by omega) hd
  · omega

theorem inSubtree_left_right_disjoint {t j : Nat} (ht : 1 ≤ t)
    (h1 : inSubtree (left_child t) j) (h2 : inSubtree (right_child t) j) : False := by
  obtain ⟨k, hk⟩ := h1
  obtain ⟨m, hm⟩ := h2
  unfold left_child at hk
  unfold right_child at hm
  rcases Nat.lt_trichotomy k m with hkm | hkm | hkm
  · have hs : j / 2 ^ m = j / 2 ^ k / 2 ^ (m - k) := div_pow_split j k m (by omega)
    rw [hk] at hs
    have hle : 2 * t / 2 ^ (m - k) ≤ 2 * t / 2 := div_pow_le_div_two _ _ (by omega)
    omega
  · rw [hkm] at hk
    omega
  · have hs : j / 2 ^ k = j / 2 ^ m / 2 ^ (k - m) := div_pow_split j m k (by omega)
    rw [hm] at hs
    have hle : (2 * t + 1) / 2 ^ (k - m) ≤ (2 * t + 1) / 2 := div_pow_le_div_two _ _ (by omega)
    omega

/-! ## Segment-tree lemmas: frame, correctness of build/query/update. -/

theorem fset_same {V : Type} (t : Nat → V) (i : Nat) (v : V) : fset t i v i = v := by
  simp [fset]

theorem fset_other {V : Type} (t : Nat → V) (i j : Nat) (v : V) (h : j ≠ i) :
    fset t i v j = t j := by
  simp [fset, h]

theorem buildF_frame {V : Type} (cmb : V → V → V) (lf : Nat → V) :
    ∀ (fuel : Nat) (tree : Nat → V) (t l r j : Nat), ¬ inSubtree t j →
      buildF cmb lf fuel tree t l r j = tree j := by
  intro fuel
  induction fuel with
  | zero => intro tree t l r j _; rfl
  | succ n ih =>
    intro tree t l r j hj
    have hjt : j ≠ t := fun h => hj (h ▸ inSubtree_self t)
    unfold buildF
    by_cases hlr : l = r
    · simp only [if_pos hlr]
      exact fset_other _ _ _ _ hjt
    · simp only [if_neg hlr]
      rw [fset_other _ _ _ _ hjt]
      rw [ih _ _ _ _ _ (fun h => hj (inSubtree_of_right h))]
      exact ih _ _ _ _ _ (fun h => hj (inSubtree_of_left h))

theorem BuiltOk_congr {V : Type} {cmb : V → V → V} {a a' tree tree' : Nat → V} :
    ∀ {t l r : Nat}, BuiltOk cmb a tree t l r →
      (∀ j, inSubtree t j → tree' j = tree j) →
      (∀ i, l ≤ i → i ≤ r → a' i = a i) →
      BuiltOk cmb a' tree' t l r := by
  intro t l r h
  induction h with
  | leaf t l hval =>
    intro htree ha
    exact BuiltOk.leaf t l (by rw [htree t (inSubtree_self t), hval, ha l le_rfl le_rfl])
  | node t l r hlr hL hR hval ihL ihR =>
    intro htree ha
    have hmidl : l ≤ midpoint l r := midpoint_lb l r (le_of_lt hlr)
    have hmidr : midpoint l r < r := midpoint_lt l r hlr
    refine BuiltOk.node t l r hlr
      (ihL (fun j hji => htree j (inSubtree_of_left hji))
        (fun i h1 h2 => ha i h1 (by omega)))
      (ihR (fun j hji => htree j (inSubtree_of_right hji))
        (fun i h1 h2 => ha i (by omega) h2))
      ?_
    rw [htree t (inSubtree_self t), hval,
      htree (left_child t) ⟨1, by unfold left_child; omega⟩,
      htree (right_child t) ⟨1, by unfold right_child; omega⟩]

theorem buildF_BuiltOk {V : Type} (cmb : V → V → V) (lf : Nat → V) :
    ∀ (fuel : Nat) (tree : Nat → V) (t l r : Nat), l ≤ r → r - l < fuel → 1 ≤ t →
      BuiltOk cmb lf (buildF cmb lf fuel tree t l r) t l r := by
  intro fuel
  induction fuel with
  | zero => intro tree t l r _ h _; omega
  | succ n ih =>
    intro tree t l r hlr hfuel ht
    unfold buildF
    by_cases heq : l = r
    · simp only [if_pos heq]
      subst heq
      exact BuiltOk.leaf t l (fset_same _ _ _)
    · simp only [if_neg heq]
      have hlr' : l < r := lt_of_le_of_ne hlr heq
      have hmidl : l ≤ midpoint l r := midpoint_lb l r hlr
      have hmidr : midpoint l r < r := midpoint_lt l r hlr'
      have hL : BuiltOk cmb lf (buildF cmb lf n tree (left_child t) l (midpoint l r))
          (left_child t) l (midpoint l r) :=
        ih tree (left_child t) l (midpoint l r) hmidl (by omega) (by unfold left_child; omega)
      have hR : BuiltOk cmb lf
          (buildF cmb lf n (buildF cmb lf n tree (left_child t) l (midpoint l r))
            (right_child t) (midpoint l r + 1) r)
          (right_child t) (midpoint l r + 1) r :=
        ih _ (right_child t) (midpoint l r + 1) r (by omega) (by omega)
          (by unfold right_child; omega)
      refine BuiltOk.node t l r hlr' ?_ ?_ (fset_same _ _ _ ▸ ?_)
      · -- transport the left subtree through the right build and the root write
        refine BuiltOk_congr hL ?_ (fun i _ _ => rfl)
        intro j hji
        rw [fset_other]
        · exact buildF_frame cmb lf n _ _ _ _ _
            (fun hr => inSubtree_left_right_disjoint ht hji hr)
        · intro hj
          exact not_inSubtree_left_self ht (hj ▸ hji)
      · refine BuiltOk_congr hR ?_ (fun i _ _ => rfl)
        intro j hji
        rw [fset_other]
        intro hj
        exact not_inSubtree_right_self ht (hj ▸ hji)
      · rw [fset_other _ _ _ _ (by unfold left_child; omega),
          fset_other _ _ _ _ (by unfold right_child; omega)]

theorem rangeFold_self {V : Type} (cmb : V → V → V) (g : Nat → V) (l : Nat) :
    rangeFold cmb g l l = g l := by
  simp [rangeFold]

theorem foldl_op_assoc {V : Type} {cmb : V → V → V}
    (hassoc : ∀ x y z, cmb (cmb x y) z = cmb x (cmb y z)) (g : Nat → V) :
    ∀ (xs : List Nat) (acc x : V),
      xs.foldl (fun a i => cmb a (g i)) (cmb acc x) =
        cmb acc (xs.foldl (fun a i => cmb a (g i)) x) := by
  intro xs
  induction xs with
  | nil => intro acc x; rfl
  | cons y ys ih =>
    intro acc x
    simp only [List.foldl_cons]
    rw [hassoc, ih]

theorem rangeFold_split {V : Type} {cmb : V → V → V} (g : Nat → V)
    (hassoc : ∀ x y z, cmb (cmb x y) z = cmb x (cmb y z))
    (l m r : Nat) (h1 : l ≤ m) (h2 : m < r) :
    rangeFold cmb g l r = cmb (rangeFold cmb g l m) (rangeFold cmb g (m + 1) r) := by
  unfold rangeFold
  have hsplit : List.range' (l + 1) (r - l) =
      List.range' (l + 1) (m - l) ++ List.range' (m + 1) (r - m) := by
    have := List.range'_append (l + 1) (m - l) (r - m) 1
    simp only [one_mul, Nat.mul_one] at this
    rw [show l + 1 + (m - l) = m + 1 by omega] at this
    rw [show r - m + (m - l) = r - l by omega] at this
    exact this.symm
  rw [hsplit, List.foldl_append]
  have hcons : List.range' (m + 1) (r - m) = (m + 1) :: List.range' (m + 2) (r - (m + 1)) := by
    rw [show r - m = (r - (m + 1)) + 1 by omega]
    rw [List.range'_succ]
  rw [hcons]
  simp only [List.foldl_cons]
  exact foldl_op_assoc hassoc g _ _ _

theorem BuiltOk_root_val {V : Type} {cmb : V → V → V} {a tree : Nat → V}
    (hassoc : ∀ x y z, cmb (cmb x y) z = cmb x (cmb y z)) :
    ∀ {t l r : Nat}, BuiltOk cmb a tree t l r → tree t = rangeFold cmb a l r := by
  intro t l r h
  induction h with
  | leaf t l hval => rw [hval, rangeFold_self]
  | node t l r hlr hL hR hval ihL ihR =>
    rw [hval, ihL, ihR,
      rangeFold_split a hassoc l (midpoint l r) r (midpoint_lb l r (le_of_lt hlr))
        (midpoint_lt l r hlr)]

theorem ne_root_of_not_inSubtree {t j : Nat} (h : ¬ inSubtree t j) : j ≠ t := by
  intro e
  exact h (by rw [e]; exact inSubtree_self t)

theorem left_desc_ne_root {t j : Nat} (ht : 1 ≤ t) (hj : inSubtree (left_child t) j) :
    j ≠ t := by
  intro e
  rw [e] at hj
  exact not_inSubtree_left_self ht hj

theorem right_desc_ne_root {t j : Nat} (ht : 1 ≤ t) (hj : inSubtree (right_child t) j) :
    j ≠ t := by
  intro e
  rw [e] at hj
  exact not_inSubtree_right_self ht hj

theorem determine_val_snd {V : Type} :
    ∀ (fuel : Nat) (st : SegTree V) (t l r tl tr : Nat),
      (determine_val fuel st t l r tl tr).2 = st := by
  intro fuel
  induction fuel with
  | zero => intro st t l r tl tr; rfl
  | succ n ih =>
    intro st t l r tl tr
    unfold determine_val
    by_cases h1 : l = tl ∧ r = tr
    · simp [h1]
    · simp only [if_neg h1]
      by_cases h2 : r ≤ midpoint tl tr
      · simp only [if_pos h2]; exact ih ..
      · simp only [if_neg h2]
        by_cases h3 : midpoint tl tr + 1 ≤ l
        · simp only [if_pos h3]; exact ih ..
        · simp only [if_neg h3]
          rcases hm1 : determine_val n st (left_child t) l (midpoint tl tr) tl
              (midpoint tl tr) with ⟨res1, st1⟩
          have e1 : st1 = st := by
            have h := ih st (left_child t) l (midpoint tl tr) tl (midpoint tl tr)
            rw [hm1] at h; exact h
          subst e1
          cases res1 with
          | ok v1 =>
            rcases hm2 : determine_val n st1 (right_child t) (midpoint tl tr + 1) r
                (midpoint tl tr + 1) tr with ⟨res2, st2⟩
            have e2 : st2 = st1 := by
              have h := ih st1 (right_child t) (midpoint tl tr + 1) r (midpoint tl tr + 1) tr
              rw [hm2] at h; exact h
            subst e2
            cases res2 <;> simp [hm1, hm2]
          | error e => simp [hm1]

theorem determine_val_ok {V : Type} {a : Nat → V} :
    ∀ (fuel : Nat) (st : SegTree V) (t left right tl tr : Nat),
      (∀ x y z, st.combine (st.combine x y) z = st.combine x (st.combine y z)) →
      BuiltOk st.combine a st.tree t tl tr →
      tl ≤ left → left ≤ right → right ≤ tr → tr - tl < fuel →
      determine_val fuel st t left right tl tr =
        (Except.ok (rangeFold st.combine a left right), st) := by
  intro fuel
  induction fuel with
  | zero => intro st t left right tl tr _ _ _ _ _ h; omega
  | succ n ih =>
    intro st t left right tl tr hassoc hok h1 h2 h3 hfuel
    unfold determine_val
    by_cases hexact : left = tl ∧ right = tr
    · simp only [if_pos hexact]
      obtain ⟨hel, her⟩ := hexact
      subst hel; subst her
      rw [BuiltOk_root_val hassoc hok]
    · simp only [if_neg hexact]
      cases hok with
      | leaf _ _ hval =>
        exact absurd ⟨by omega, by omega⟩ hexact
      | node _ _ _ hlr hL hR hval =>
        have hmidl : tl ≤ midpoint tl tr := midpoint_lb tl tr (le_of_lt hlr)
        have hmidr : midpoint tl tr < tr := midpoint_lt tl tr hlr
        by_cases hc2 : right ≤ midpoint tl tr
        · simp only [if_pos hc2]
          exact ih st (left_child t) left right tl (midpoint tl tr) hassoc hL h1 h2 hc2
            (by omega)
        · simp only [if_neg hc2]
          by_cases hc3 : midpoint tl tr + 1 ≤ left
          · simp only [if_pos hc3]
            exact ih st (right_child t) left right (midpoint tl tr + 1) tr hassoc hR hc3 h2
              h3 (by omega)
          · simp only [if_neg hc3]
            simp only [ih st (left_child t) left (midpoint tl tr) tl (midpoint tl tr) hassoc
                hL h1 (by omega) le_rfl (by omega),
              ih st (right_child t) (midpoint tl tr + 1) right (midpoint tl tr + 1) tr
                hassoc hR le_rfl (by omega) h3 (by omega)]
            rw [← rangeFold_split a hassoc left (midpoint tl tr) right (by omega) (by omega)]

theorem update_val_at_err {V : Type} (lf : Nat → V) :
    ∀ (fuel : Nat) (st : SegTree V) (idx t tl tr : Nat) (e : STErr),
      (update_val_at lf fuel st idx t tl tr).1 = Except.error e →
      (update_val_at lf fuel st idx t tl tr).2 = st := by
  intro fuel
  induction fuel with
  | zero => intro st idx t tl tr e _; rfl
  | succ n ih =>
    intro st idx t tl tr e herr
    unfold update_val_at at herr ⊢
    by_cases h1 : tl = tr
    · simp only [if_pos h1] at herr ⊢
      by_cases h2 : tl ≠ idx
      · simp [h2]
      · simp [h2] at herr
    · simp only [if_neg h1] at herr ⊢
      by_cases h2 : idx ≤ midpoint tl tr
      · simp only [if_pos h2] at herr ⊢
        rcases hm : update_val_at lf n st idx (left_child t) tl (midpoint tl tr)
          with ⟨res1, st1⟩
        cases res1 with
        | ok _ =>
          rw [hm] at herr
          simp at herr
        | error e1 =>
          have h := ih st idx (left_child t) tl (midpoint tl tr) e1 (by rw [hm])
          rw [hm] at h
          exact h
      · simp only [if_neg h2] at herr ⊢
        rcases hm : update_val_at lf n st idx (right_child t) (midpoint tl tr + 1) tr
          with ⟨res1, st1⟩
        cases res1 with
        | ok _ =>
          rw [hm] at herr
          simp at herr
        | error e1 =>
          have h := ih st idx (right_child t) (midpoint tl tr + 1) tr e1 (by rw [hm])
          rw [hm] at h
          exact h

theorem update_val_at_ok {V : Type} {a : Nat → V} (lf : Nat → V) :
    ∀ (fuel : Nat) (st : SegTree V) (idx t tl tr : Nat),
      BuiltOk st.combine a st.tree t tl tr →
      tl ≤ idx → idx ≤ tr → tr - tl < fuel → 1 ≤ t →
      ∃ st', update_val_at lf fuel st idx t tl tr = (Except.ok (), st') ∧
        st'.combine = st.combine ∧ st'.identity = st.identity ∧ st'.size = st.size ∧
        (∀ j, ¬ inSubtree t j → st'.tree j = st.tree j) ∧
        BuiltOk st.combine (Function.update a idx (lf idx)) st'.tree t tl tr := by
  intro fuel
  induction fuel with
  | zero => intro st idx t tl tr _ _ _ h _; omega
  | succ n ih =>
    intro st idx t tl tr hok h1 h2 hfuel ht
    unfold update_val_at
    by_cases hleaf : tl = tr
    · subst hleaf
      simp only [if_pos rfl]
      have hidx : tl = idx := by omega
      simp only [if_neg (show ¬ tl ≠ idx by omega)]
      refine ⟨_, rfl, rfl, rfl, rfl, ?_, ?_⟩
      · intro j hj
        exact fset_other _ _ _ _ (ne_root_of_not_inSubtree hj)
      · refine BuiltOk.leaf t tl ?_
        show fset st.tree t (lf tl) t = Function.update a idx (lf idx) tl
        rw [fset_same, hidx, Function.update_same]
    · simp only [if_neg hleaf]
      cases hok with
      | leaf _ _ hval => omega
      | node _ _ _ hlr hL hR hval =>
        have hmidl : tl ≤ midpoint tl tr := midpoint_lb tl tr (le_of_lt hlr)
        have hmidr : midpoint tl tr < tr := midpoint_lt tl tr hlr
        by_cases hside : idx ≤ midpoint tl tr
        · simp only [if_pos hside]
          obtain ⟨st1, hst1, hcmb, hid, hsz, hframe, hnew⟩ :=
            ih st idx (left_child t) tl (midpoint tl tr) hL h1 hside (by omega)
              (by unfold left_child; omega)
          rw [hst1]
          refine ⟨_, rfl, hcmb, hid, hsz, ?_, ?_⟩
          · intro j hj
            show fset st1.tree t _ j = st.tree j
            rw [fset_other _ _ _ _ (ne_root_of_not_inSubtree hj),
              hframe j (fun h => hj (inSubtree_of_left h))]
          · have hRnew : BuiltOk st.combine (Function.update a idx (lf idx)) st1.tree
                (right_child t) (midpoint tl tr + 1) tr := by
              refine BuiltOk_congr hR ?_ ?_
              · intro j hj
                exact hframe j (fun h => inSubtree_left_right_disjoint ht h hj)
              · intro i hi1 hi2
                rw [Function.update_noteq (by omega)]
            refine BuiltOk.node t tl tr hlr ?_ ?_ ?_
            · exact BuiltOk_congr hnew
                (fun j hj => fset_other _ _ _ _ (left_desc_ne_root ht hj))
                (fun i _ _ => rfl)
            · exact BuiltOk_congr hRnew
                (fun j hj => fset_other _ _ _ _ (right_desc_ne_root ht hj))
                (fun i _ _ => rfl)
            · show fset st1.tree t _ t =
                st.combine (fset st1.tree t _ (left_child t)) (fset st1.tree t _ (right_child t))
              rw [fset_same,
                fset_other _ _ _ _ (by unfold left_child; omega),
                fset_other _ _ _ _ (by unfold right_child; omega), hcmb]
        · simp only [if_neg hside]
          obtain ⟨st1, hst1, hcmb, hid, hsz, hframe, hnew⟩ :=
            ih st idx (right_child t) (midpoint tl tr + 1) tr hR (by omega) h2 (by omega)
              (by unfold right_child; omega)
          rw [hst1]
          refine ⟨_, rfl, hcmb, hid, hsz, ?_, ?_⟩
          · intro j hj
            show fset st1.tree t _ j = st.tree j
            rw [fset_other _ _ _ _ (ne_root_of_not_inSubtree hj),
              hframe j (fun h => hj (inSubtree_of_right h))]
          · have hLnew : BuiltOk st.combine (Function.update a idx (lf idx)) st1.tree
                (left_child t) tl (midpoint tl tr) := by
              refine BuiltOk_congr hL ?_ ?_
              · intro j hj
                exact hframe j (fun h => inSubtree_left_right_disjoint ht hj h)
              · intro i hi1 hi2
                rw [Function.update_noteq (by omega)]
            refine BuiltOk.node t tl tr hlr ?_ ?_ ?_
            · exact BuiltOk_congr hLnew
                (fun j hj => fset_other _ _ _ _ (left_desc_ne_root ht hj))
                (fun i _ _ => rfl)
            · exact BuiltOk_congr hnew
                (fun j hj => fset_other _ _ _ _ (right_desc_ne_root ht hj))
                (fun i _ _ => rfl)
            · show fset st1.tree t _ t =
                st.combine (fset st1.tree t _ (left_child t)) (fset st1.tree t _ (right_child t))
              rw [fset_same,
                fset_other _ _ _ _ (by unfold left_child; omega),
                fset_other _ _ _ _ (by unfold right_child; omega), hcmb]

theorem setup_ok {V : Type} (junk ident : V) (jc cmb : V → V → V) (lf : Nat → V)
    (n : Nat) (hn : 0 < n) :
    setup (create_segment_tree junk jc) cmb lf (n : Int) ident junk =
      (Except.ok (),
        ⟨buildF cmb lf n (fun _ => junk) TREE_ROOT 0 (n - 1), cmb, ident, n⟩) := by
  unfold setup create_segment_tree
  rw [if_neg (by omega : ¬ (n : Int) < 0)]
  simp only [Int.toNat_natCast]
  rw [if_neg (by omega : ¬ n = 0)]

theorem update_at_err {V : Type} (st : SegTree V) (idx : Nat) (lf : Nat → V) (e : STErr)
    (h : (update_at st idx lf).1 = Except.error e) : (update_at st idx lf).2 = st := by
  unfold update_at at h ⊢
  by_cases h1 : st.size ≤ idx
  · simp [h1]
  · simp only [if_neg h1] at h ⊢
    exact update_val_at_err lf st.size st idx TREE_ROOT 0 (st.size - 1) e h

theorem runST_steps {V : Type} (cmb : V → V → V) (ident : V) (n : Nat) (hn : 0 < n) :
    ∀ (updates : List (Nat × (Nat → V))) (st : SegTree V) (a : Nat → V),
      st.combine = cmb → st.identity = ident → st.size = n →
      BuiltOk cmb a st.tree TREE_ROOT 0 (n - 1) →
      (updates.foldl stepST (st, a)).1.combine = cmb ∧
      (updates.foldl stepST (st, a)).1.identity = ident ∧
      (updates.foldl stepST (st, a)).1.size = n ∧
      BuiltOk cmb (updates.foldl stepST (st, a)).2
        (updates.foldl stepST (st, a)).1.tree TREE_ROOT 0 (n - 1) := by
  intro updates
  induction updates with
  | nil => intro st a h1 h2 h3 h4; exact ⟨h1, h2, h3, h4⟩
  | cons u us ih =>
    intro st a h1 h2 h3 h4
    simp only [List.foldl_cons]
    rcases hstep : stepST (st, a) u with ⟨st', a'⟩
    have hprops : st'.combine = cmb ∧ st'.identity = ident ∧ st'.size = n ∧
        BuiltOk cmb a' st'.tree TREE_ROOT 0 (n - 1) := by
      unfold stepST at hstep
      rcases hup : update_at st u.1 u.2 with ⟨res, stu⟩
      rw [hup] at hstep
      cases res with
      | error e =>
        have heq : stu = st := by
          have h := update_at_err st u.1 u.2 e (by rw [hup])
          rw [hup] at h
          exact h
        simp only at hstep
        rw [Prod.mk.injEq] at hstep
        obtain ⟨e1, e2⟩ := hstep
        rw [← e1, ← e2, heq]
        exact ⟨h1, h2, h3, h4⟩
      | ok _ =>
        simp only at hstep
        rw [Prod.mk.injEq] at hstep
        obtain ⟨e1, e2⟩ := hstep
        -- a successful update means the bounds check passed
        unfold update_at at hup
        by_cases hb : st.size ≤ u.1
        · rw [if_pos hb] at hup
          exact absurd (congrArg Prod.fst hup) (by simp)
        · rw [if_neg hb] at hup
          have hok : BuiltOk st.combine a st.tree TREE_ROOT 0 (n - 1) := by
            rw [h1]; exact h4
          obtain ⟨st2, hst2, hcmb, hid, hsz, hframe, hnew⟩ :=
            update_val_at_ok u.2 st.size st u.1 TREE_ROOT 0 (st.size - 1)
              (by rw [h3]; exact hok) (by omega) (by omega) (by omega)
              (by unfold TREE_ROOT; omega)
          rw [hst2, Prod.mk.injEq] at hup
          obtain ⟨_, e4⟩ := hup
          subst e4
          subst e1
          subst e2
          refine ⟨by rw [hcmb, h1], by rw [hid, h2], by rw [hsz, h3], ?_⟩
          rw [h3, h1] at hnew
          exact hnew
    exact ih st' a' hprops.1 hprops.2.1 hprops.2.2.1 hprops.2.2.2

theorem runST_inv {V : Type} (cmb : V → V → V) (lf : Nat → V) (junk ident : V)
    (jc : V → V → V) (n : Nat) (hn : 0 < n) (updates : List (Nat × (Nat → V))) :
    (runST (setup (create_segment_tree junk jc) cmb lf (n : Int) ident junk).2 lf
        updates).1.combine = cmb ∧
    (runST (setup (create_segment_tree junk jc) cmb lf (n : Int) ident junk).2 lf
        updates).1.identity = ident ∧
    (runST (setup (create_segment_tree junk jc) cmb lf (n : Int) ident junk).2 lf
        updates).1.size = n ∧
    BuiltOk cmb
      (runST (setup (create_segment_tree junk jc) cmb lf (n : Int) ident junk).2 lf updates).2
      (runST (setup (create_segment_tree junk jc) cmb lf (n : Int) ident junk).2 lf
        updates).1.tree
      TREE_ROOT 0 (n - 1) := by
  rw [setup_ok junk ident jc cmb lf n hn]
  unfold runST
  exact runST_steps cmb ident n hn updates _ lf rfl rfl rfl
    (buildF_BuiltOk cmb lf n (fun _ => junk) TREE_ROOT 0 (n - 1) (by omega) (by omega)
      (by unfold TREE_ROOT; omega))

/-- C6: after construction, and still after every sequence of `update_at` calls
(each call supplying the leaf lambda's behaviour at call time), the stored tree
satisfies the structural invariant: every non-leaf node of the logical tree
holds `combine` of its left child's value then its right child's value, and
every leaf holds the most recent leaf value obtained for its index (the ghost
array threaded by `runST`). -/
theorem segment_tree_node_invariant {V : Type} (cmb : V → V → V) (lf : Nat → V)
    (junk ident : V) (jc : V → V → V) (n : Nat) (hn : 0 < n)
    (updates : List (Nat × (Nat → V))) :
    BuiltOk cmb
      (runST (setup (create_segment_tree junk jc) cmb lf (n : Int) ident junk).2 lf updates).2
      (runST (setup (create_segment_tree junk jc) cmb lf (n : Int) ident junk).2 lf
        updates).1.tree
      TREE_ROOT 0 (n - 1) :=
  (runST_inv cmb lf junk ident jc n hn updates).2.2.2

/-- Witness for C6 at a concrete instance: size 2, sum tree over leaf values
`i`, one successful update of cell 0 to 5. -/
theorem segment_tree_node_invariant_witness :
    0 < 2 ∧
    BuiltOk (fun a b => a + b)
      (runST (setup (create_segment_tree 99 (fun a _ => a)) (fun a b => a + b)
          (fun i => i) ((2 : Nat) : Int) 0 99).2 (fun i => i)
        [(0, fun _ => 5)]).2
      (runST (setup (create_segment_tree 99 (fun a _ => a)) (fun a b => a + b)
          (fun i => i) ((2 : Nat) : Int) 0 99).2 (fun i => i)
        [(0, fun _ => 5)]).1.tree
      TREE_ROOT 0 (2 - 1) :=
  ⟨by decide,
    segment_tree_node_invariant (fun a b => a + b) (fun i => i) 99 0 (fun a _ => a) 2
      (by decide) [(0, fun _ => 5)]⟩

/-- C2: on a tree built with an associative combine (and carried through any
sequence of successful updates), `query_on (l, r)` over a valid non-empty
range returns exactly the left-to-right fold of the current leaf values with
`combine`; in particular, immediately after construction,
`query_on (r, r)` returns `leaf_value r`. -/
theorem query_on_range_fold {V : Type} (cmb : V → V → V) (lf : Nat → V)
    (junk ident : V) (jc : V → V → V) (n : Nat) (updates : List (Nat × (Nat → V)))
    (l r : Nat) (hassoc : ∀ x y z, cmb (cmb x y) z = cmb x (cmb y z))
    (hn : 0 < n) (hlr : l ≤ r) (hr : r < n) :
    query_on
        (runST (setup (create_segment_tree junk jc) cmb lf (n : Int) ident junk).2 lf
          updates).1 l r =
      (Except.ok (rangeFold cmb
          (runST (setup (create_segment_tree junk jc) cmb lf (n : Int) ident junk).2 lf
            updates).2 l r),
        (runST (setup (create_segment_tree junk jc) cmb lf (n : Int) ident junk).2 lf
          updates).1) ∧
    query_on (setup (create_segment_tree junk jc) cmb lf (n : Int) ident junk).2 r r =
      (Except.ok (lf r),
        (setup (create_segment_tree junk jc) cmb lf (n : Int) ident junk).2) := by
  constructor
  · obtain ⟨hc, hi, hsz, hok⟩ := runST_inv cmb lf junk ident jc n hn updates
    generalize hP : (runST (setup (create_segment_tree junk jc) cmb lf (n : Int) ident
        junk).2 lf updates) = P at hc hi hsz hok ⊢
    unfold query_on
    rw [hsz]
    rw [if_neg (by omega), if_neg (by omega)]
    have h := determine_val_ok n P.1 TREE_ROOT l r 0 (n - 1)
      (by rw [hc]; exact hassoc) (by rw [hc]; exact hok) (by omega) hlr (by omega)
      (by omega)
    rw [hc] at h
    exact h
  · obtain ⟨hc, hi, hsz, hok⟩ := runST_inv cmb lf junk ident jc n hn []
    unfold runST at hc hi hsz hok
    simp only [List.foldl_nil] at hc hi hsz hok
    unfold query_on
    rw [hsz]
    rw [if_neg (by omega), if_neg (by omega)]
    have h := determine_val_ok n
      (setup (create_segment_tree junk jc) cmb lf (n : Int) ident junk).2 TREE_ROOT r r 0
      (n - 1) (by rw [hc]; exact hassoc) (by rw [hc]; exact hok) (by omega) le_rfl
      (by omega) (by omega)
    rw [hc] at h
    rw [h, rangeFold_self]

/-- Witness for C2: sum tree of size 4 over leaf values `i`, no updates,
query over `[1, 3]` and the single-cell query at 3. -/
theorem query_on_range_fold_witness :
    0 < 4 ∧ 1 ≤ 3 ∧ 3 < 4 ∧
    (query_on
        (runST (setup (create_segment_tree 99 (fun a _ => a)) (fun a b => a + b)
          (fun i => i) ((4 : Nat) : Int) 0 99).2 (fun i => i) []).1 1 3 =
      (Except.ok (rangeFold (fun a b => a + b)
          (runST (setup (create_segment_tree 99 (fun a _ => a)) (fun a b => a + b)
            (fun i => i) ((4 : Nat) : Int) 0 99).2 (fun i => i) []).2 1 3),
        (runST (setup (create_segment_tree 99 (fun a _ => a)) (fun a b => a + b)
          (fun i => i) ((4 : Nat) : Int) 0 99).2 (fun i => i) []).1) ∧
    query_on (setup (create_segment_tree 99 (fun a _ => a)) (fun a b => a + b)
        (fun i => i) ((4 : Nat) : Int) 0 99).2 3 3 =
      (Except.ok 3,
        (setup (create_segment_tree 99 (fun a _ => a)) (fun a b => a + b)
          (fun i => i) ((4 : Nat) : Int) 0 99).2)) :=
  ⟨by decide, by decide, by decide,
    query_on_range_fold (fun a b => a + b) (fun i => i) 99 0 (fun a _ => a) 4 [] 1 3
      (fun x y z => Nat.add_assoc x y z) (by decide) (by decide) (by decide)⟩

/-- C10: `query_on` never mutates the segment tree: the structure it returns
is the structure it was given (tree array, size, identity and combine all
included), and repeating the identical query on the returned structure gives
the identical outcome. -/
theorem query_on_no_mutation {V : Type} (st : SegTree V) (l r : Nat) :
    (query_on st l r).2 = st ∧
    query_on (query_on st l r).2 l r = query_on st l r := by
  have h : (query_on st l r).2 = st := by
    unfold query_on
    by_cases h1 : st.size ≤ r
    · simp [h1]
    · simp only [if_neg h1]
      by_cases h2 : r < l
      · simp [h2]
      · simp only [if_neg h2]
        exact determine_val_snd ..
  exact ⟨h, by rw [h]⟩

/-- C3 counterexample: on a tree of size 1 with identity 7, the empty-range
query `query_on (5, 3)` raises the range error because the `right >= size`
bounds check precedes the empty-range test, instead of returning the identity
as the claim states. -/
theorem query_on_empty_range_counterexample :
    (query_on (⟨fun _ => 0, fun a b => a + b, 7, 1⟩ : SegTree Nat) 5 3).1 =
        Except.error STErr.dataError ∧
    (query_on (⟨fun _ => 0, fun a b => a + b, 7, 1⟩ : SegTree Nat) 5 3).1 ≠
        Except.ok 7 := by
  constructor
  · rfl
  · decide

/-- C3 amended: `query_on (left, right)` with `left > right` returns the
identity exactly, without raising and with no bounds check on `left` (which
may lie arbitrarily far outside `[0, size)`), provided `right < size`;  when
`right ≥ size` the call raises the range error even though the range is
empty. -/
theorem query_on_empty_range_amended {V : Type} (st : SegTree V) (l r : Nat)
    (h : r < l) :
    (r < st.size → query_on st l r = (Except.ok st.identity, st)) ∧
    (st.size ≤ r → query_on st l r = (Except.error STErr.dataError, st)) := by
  unfold query_on
  constructor
  · intro hr
    rw [if_neg (by omega), if_pos h]
  · intro hr
    rw [if_pos hr]

/-- Witness for the amended C3: size 10, identity 7, query `(15, 3)` with the
left endpoint far outside the array. -/
theorem query_on_empty_range_amended_witness :
    (3 : Nat) < 15 ∧
    ((3 < (10 : Nat) →
        query_on (⟨fun _ => 0, fun a b => a + b, 7, 10⟩ : SegTree Nat) 15 3 =
          (Except.ok 7, (⟨fun _ => 0, fun a b => a + b, 7, 10⟩ : SegTree Nat))) ∧
      ((10 : Nat) ≤ 3 →
        query_on (⟨fun _ => 0, fun a b => a + b, 7, 10⟩ : SegTree Nat) 15 3 =
          (Except.error STErr.dataError,
            (⟨fun _ => 0, fun a b => a + b, 7, 10⟩ : SegTree Nat)))) :=
  ⟨by decide,
    query_on_empty_range_amended (⟨fun _ => 0, fun a b => a + b, 7, 10⟩ : SegTree Nat)
      15 3 (by decide)⟩

/-- C4 counterexample: on a freshly constructed empty structure, `unite 0 0`
fails with the unknown-element error, not the self-union error, because the
membership checks run before the self-union check. -/
theorem unite_self_counterexample :
    (unite (disjoint_union_init 0) 0 0).1 = Except.error DUErr.unknownElement ∧
    (unite (disjoint_union_init 0) 0 0).1 ≠ Except.error DUErr.selfUnion := by
  constructor
  · rfl
  · decide

/-- C4 amended: `unite a a` always fails and never changes the structure, but
the error depends on membership: the self-union error when `a` is present and
the unknown-element error when it is not. -/
theorem unite_self_amended (du : DU) (a : Nat) :
    unite du a a =
      ((if present_p du a then Except.error DUErr.selfUnion
        else Except.error DUErr.unknownElement), du) := by
  unfold unite
  by_cases h : present_p du a
  · simp [h]
  · simp [h]

/-- C9: the off-by-one in `set_vec_elt`.  Growing the CC vector for
`make_set 2` on a fresh structure fills positions `sz+1 .. index` with the
default pair but never writes position `sz` (= 0 here): that slot keeps
whatever residual memory `resize` exposed (the arbitrary `g`), so key 0 —
never added — is reported present exactly when the garbage parent differs
from the sentinel `-1`, although key 0 is absent before the call. -/
theorem set_vec_elt_gap_bug (g : DataPair) :
    (add_new_element_cc g create_disjoint_union 2).2.pairs.getD 0 default_pair = g ∧
    present_p_cc (add_new_element_cc g create_disjoint_union 2).2 0 =
      decide (g.parent ≠ -1) ∧
    present_p_cc create_disjoint_union 0 = false := by
  have hpairs : (add_new_element_cc g create_disjoint_union 2).2.pairs =
      [g, default_pair, make_data_pair 2 0] := by
    rfl
  refine ⟨by rw [hpairs]; rfl, ?_, by rfl⟩
  rw [present_p_cc, hpairs]
  simp [DEFAULT_ARRAY_VAL]

/-! ## Lemmas about the growable array. -/

theorem getD_set_self (l : List Int) (i : Nat) (d v : Int) (h : i < l.length) :
    (l.set i v).getD i d = v := by
  simp [List.getD_eq_getElem?_getD, List.getElem?_set_self', h]

theorem getD_set_other (l : List Int) (i j : Nat) (d v : Int) (h : j ≠ i) :
    (l.set i v).getD j d = l.getD j d := by
  simp [List.getD_eq_getElem?_getD, List.getElem?_set_ne (Ne.symm h)]

theorem getD_out_of_range (l : List Int) (i : Nat) (d : Int) (h : l.length ≤ i) :
    l.getD i d = d := by
  simp [List.getD_eq_getElem?_getD, List.getElem?_eq_none h]

theorem getD_default_irrel (l : List Int) (i : Nat) (d d' : Int) (h : i < l.length) :
    l.getD i d = l.getD i d' := by
  simp [List.getD_eq_getElem?_getD, List.getElem?_eq_getElem h]

theorem growSize_gt_aux (idx : Nat) :
    ∀ (k s : Nat), idx + 1 - s ≤ k → idx < growSize s idx := by
  intro k
  induction k with
  | zero =>
    intro s h
    rw [growSize, if_neg (by omega)]
    omega
  | succ n ih =>
    intro s h
    rw [growSize]
    by_cases hs : s ≤ idx
    · rw [if_pos hs]
      apply ih
      have h8 : s ≤ 8 * s / 5 := Nat.le_div_iff_mul_le (by norm_num) |>.mpr (by omega)
      omega
    · rw [if_neg hs]
      omega

theorem growSize_gt (s idx : Nat) : idx < growSize s idx :=
  growSize_gt_aux idx (idx + 1) s (by omega)

theorem insertArray_default_val (a : CArr) (i : Nat) (v : Int) :
    (insertArray a i v).default_val = a.default_val := by
  unfold insertArray
  by_cases h : a.array.length ≤ i <;> simp [h]

theorem insertArray_length (a : CArr) (i : Nat) (v : Int) :
    (insertArray a i v).array.length =
      if a.array.length ≤ i then growSize a.array.length i else a.array.length := by
  unfold insertArray
  by_cases h : a.array.length ≤ i <;> simp [h]
  have := growSize_gt a.array.length i
  omega

theorem insertArray_length_gt (a : CArr) (i : Nat) (v : Int) :
    i < (insertArray a i v).array.length := by
  rw [insertArray_length]
  by_cases h : a.array.length ≤ i
  · rw [if_pos h]; exact growSize_gt _ _
  · rw [if_neg h]; omega

theorem insertArray_length_mono (a : CArr) (i : Nat) (v : Int) :
    a.array.length ≤ (insertArray a i v).array.length := by
  rw [insertArray_length]
  by_cases h : a.array.length ≤ i
  · rw [if_pos h]
    have := growSize_gt a.array.length i
    omega
  · rw [if_neg h]

theorem insertArray_getD_self (a : CArr) (i : Nat) (v d : Int) :
    (insertArray a i v).array.getD i d = v := by
  unfold insertArray
  by_cases h : a.array.length ≤ i
  · simp only [if_pos h]
    apply getD_set_self
    rw [List.length_append, List.length_replicate]
    have := growSize_gt a.array.length i
    omega
  · simp only [if_neg h]
    exact getD_set_self _ _ _ _ (by omega)

theorem insertArray_getD_old (a : CArr) (i j : Nat) (v d : Int) (hji : j ≠ i)
    (hj : j < a.array.length) :
    (insertArray a i v).array.getD j d = a.array.getD j d := by
  unfold insertArray
  by_cases h : a.array.length ≤ i
  · simp only [if_pos h]
    rw [getD_set_other _ _ _ _ _ hji]
    simp [List.getD_eq_getElem?_getD, List.getElem?_append_left hj]
  · simp only [if_neg h]
    exact getD_set_other _ _ _ _ _ hji

theorem insertArray_getD_gap (a : CArr) (i j : Nat) (v d : Int) (hji : j ≠ i)
    (hj : a.array.length ≤ j) (hj2 : j < (insertArray a i v).array.length) :
    (insertArray a i v).array.getD j d = a.default_val := by
  rw [insertArray_length] at hj2
  unfold insertArray
  by_cases h : a.array.length ≤ i
  · simp only [if_pos h]
    rw [getD_set_other _ _ _ _ _ hji]
    rw [if_pos h] at hj2
    rw [List.getD_eq_getElem?_getD, List.getElem?_append_right hj]
    simp only [List.getElem?_replicate]
    rw [if_pos (by omega)]
    rfl
  · rw [if_neg h] at hj2
    omega

/-! ## Lemmas about presence and the reference partition. -/

theorem present_p_iff (du : DU) (e : Nat) :
    present_p du e = true ↔ presF du.forest.array e := by
  unfold present_p presF DEFAULT_ARRAY_VAL
  rw [Bool.and_eq_true, decide_eq_true_iff, decide_eq_true_iff]
  constructor
  · rintro ⟨h1, h2⟩
    refine ⟨h1, ?_⟩
    rw [getD_default_irrel _ _ 0 du.forest.default_val h1]
    exact h2
  · rintro ⟨h1, h2⟩
    refine ⟨h1, ?_⟩
    rw [getD_default_irrel _ _ du.forest.default_val 0 h1]
    exact h2

theorem refLookup_mem {ref : Ref} {e c : Nat} (h : refLookup ref e = some c) :
    (e, c) ∈ ref := by
  unfold refLookup at h
  rcases hf : ref.find? (fun p => p.1 == e) with _ | p
  · rw [hf] at h; simp at h
  · rw [hf] at h
    rcases p with ⟨p1, p2⟩
    simp only [Option.map_some'] at h
    have h1 := List.find?_some hf
    have h2 := List.mem_of_find?_eq_some hf
    simp only [beq_iff_eq] at h1
    have hc : p2 = c := by injection h
    rw [← h1, ← hc]
    exact h2

theorem refLookup_none {ref : Ref} {e : Nat} (h : refLookup ref e = none) :
    ∀ c, (e, c) ∉ ref := by
  intro c hmem
  unfold refLookup at h
  rcases hf : ref.find? (fun p => p.1 == e) with _ | p
  · have := List.find?_eq_none.mp hf (e, c) hmem
    simp at this
  · rw [hf] at h; simp at h

theorem refPresent_of_mem {ref : Ref} {e c : Nat} (h : (e, c) ∈ ref) :
    refPresent ref e = true := by
  unfold refPresent
  rcases hl : refLookup ref e with _ | d
  · exact absurd h (refLookup_none hl c)
  · rfl

theorem refLookup_append_fresh (ref : Ref) (e x : Nat) :
    refPresent ref e = false →
      refLookup (ref ++ [(e, e)]) x = if x = e then some e else refLookup ref x := by
  intro hfresh
  unfold refLookup
  rw [List.find?_append]
  by_cases hx : x = e
  · subst hx
    have hf : ref.find? (fun p => p.1 == x) = none := by
      unfold refPresent refLookup at hfresh
      rcases hf : ref.find? (fun p => p.1 == x) with _ | p
      · exact hf
      · rw [hf] at hfresh; simp at hfresh
    rw [hf]
    simp [List.find?]
  · rw [if_neg hx]
    rcases hf : ref.find? (fun p => p.1 == x) with _ | p
    · rw [hf]
      have hbe : (e == x) = false := by simp [Ne.symm hx]
      simp [List.find?, hbe]
    · rw [hf]
      simp

theorem refLookup_map_merge (ref : Ref) (la lb x : Nat) :
    refLookup (ref.map (fun p => if p.2 = lb then (p.1, la) else p)) x =
      (refLookup ref x).map (fun c => if c = lb then la else c) := by
  unfold refLookup
  rw [List.find?_map]
  have hp : ((fun q => q.1 == x) ∘ (fun p : Nat × Nat => if p.2 = lb then (p.1, la) else p)) =
      (fun p : Nat × Nat => p.1 == x) := by
    funext p
    rcases p with ⟨p1, p2⟩
    by_cases h : p2 = lb <;> simp [h]
  rw [hp]
  rcases hf : ref.find? (fun p : Nat × Nat => p.1 == x) with _ | p
  · simp
  · rcases p with ⟨p1, p2⟩
    by_cases h : p2 = lb <;> simp [h]

theorem refInit_lookup (n : Nat) :
    ∀ e, refLookup (refInit n) e = if e < n then some e else none := by
  induction n with
  | zero => intro e; simp [refInit, refLookup, List.find?]
  | succ m ih =>
    intro e
    have hsplit : refInit (m + 1) = refInit m ++ [(m, m)] := by
      unfold refInit
      rw [List.range_succ, List.map_append]
      rfl
    have hfresh : refPresent (refInit m) m = false := by
      unfold refPresent
      rw [ih m]
      simp
    rw [hsplit, refLookup_append_fresh _ _ _ hfresh]
    by_cases he : e = m
    · subst he
      simp
    · rw [if_neg he, ih e]
      by_cases h2 : e < m
      · rw [if_pos h2, if_pos (by omega)]
      · rw [if_neg h2, if_neg (by omega)]

/-! ## Lemmas about `rootF` and path halving. -/

theorem rootF_succ (f : List Int) (x fu : Nat) :
    rootF f x (fu + 1) =
      if f.getD x 0 = (x : Int) then some x else rootF f (f.getD x 0).toNat fu := rfl

theorem rootF_mono {f : List Int} :
    ∀ {fu : Nat} {x r : Nat}, rootF f x fu = some r →
      ∀ fu', fu ≤ fu' → rootF f x fu' = some r := by
  intro fu
  induction fu with
  | zero => intro x r h; simp [rootF] at h
  | succ n ih =>
    intro x r h fu' hle
    rcases fu' with _ | m
    · omega
    · rw [rootF_succ] at h ⊢
      by_cases hroot : f.getD x 0 = (x : Int)
      · rw [if_pos hroot] at h ⊢; exact h
      · rw [if_neg hroot] at h ⊢
        exact ih h m (by omega)

theorem fpar_eq_iff (f : List Int) (x : Nat) (h0 : 0 ≤ f.getD x 0) :
    fpar f x = x ↔ f.getD x 0 = (x : Int) := by
  unfold fpar
  constructor
  · intro h
    have hc := Int.toNat_of_nonneg h0
    rw [h] at hc
    exact hc.symm
  · intro h
    rw [h]
    exact Int.toNat_natCast x

theorem fpar_cast (f : List Int) (x : Nat) (h0 : 0 ≤ f.getD x 0) :
    ((fpar f x : Nat) : Int) = f.getD x 0 := by
  unfold fpar
  exact Int.toNat_of_nonneg h0

theorem rootF_isSome (f rk : List Int) (B : Nat) (hH : Hfor f rk B) :
    ∀ (fuel x : Nat), presF f x → B + 1 - rkN rk x ≤ fuel →
      ∃ r, rootF f x fuel = some r := by
  intro fuel
  induction fuel with
  | zero =>
    intro x hx hb
    have := (hH x hx).2.2.2
    omega
  | succ n ih =>
    intro x hx hb
    rw [rootF_succ]
    by_cases hroot : f.getD x 0 = (x : Int)
    · exact ⟨x, by rw [if_pos hroot]⟩
    · rw [if_neg hroot]
      obtain ⟨h0, hp, hstrict, hbound⟩ := hH x hx
      have hne : fpar f x ≠ x := fun he => hroot ((fpar_eq_iff f x h0).mp he)
      have := hstrict hne
      exact ih (fpar f x) hp (by omega)

theorem rootF_props (f rk : List Int) (ref : Ref) (B : Nat) (hH : Hfor f rk B)
    (hL : Hlab f ref) :
    ∀ (fuel x r : Nat), presF f x → rootF f x fuel = some r →
      presF f r ∧ f.getD r 0 = (r : Int) ∧ refLookup ref r = refLookup ref x := by
  intro fuel
  induction fuel with
  | zero => intro x r _ h; simp [rootF] at h
  | succ n ih =>
    intro x r hx h
    rw [rootF_succ] at h
    by_cases hroot : f.getD x 0 = (x : Int)
    · rw [if_pos hroot] at h
      have : x = r := by injection h
      subst this
      exact ⟨hx, hroot, rfl⟩
    · rw [if_neg hroot] at h
      obtain ⟨h0, hp, _, _⟩ := hH x hx
      obtain ⟨hr1, hr2, hr3⟩ := ih (fpar f x) r hp h
      exact ⟨hr1, hr2, by rw [hr3, hL x hx]⟩

theorem rootD_parent (f rk : List Int) (B : Nat) (hH : Hfor f rk B)
    (hB : B ≤ f.length) (x : Nat) (hx : presF f x)
    (hnr : f.getD x 0 ≠ (x : Int)) :
    rootD f x = rootD f (fpar f x) := by
  obtain ⟨h0, hp, hstrict, hbound⟩ := hH x hx
  have hne : fpar f x ≠ x := fun he => hnr ((fpar_eq_iff f x h0).mp he)
  obtain ⟨r, hr⟩ := rootF_isSome f rk B hH f.length (fpar f x) hp
    (by have := hstrict hne; omega)
  unfold rootD
  rw [rootF_succ, if_neg hnr]
  show rootF f (fpar f x) f.length = rootF f (fpar f x) (f.length + 1)
  rw [hr, rootF_mono hr (f.length + 1) (by omega)]

theorem halve_bundle (f rk : List Int) (ref : Ref) (B : Nat) (x : Nat)
    (hH : Hfor f rk B) (hL : Hlab f ref) (hx : presF f x)
    (hnr2 : f.getD (fpar f x) 0 ≠ f.getD x 0) :
    Hfor (f.set x (f.getD (fpar f x) 0)) rk B ∧
    Hlab (f.set x (f.getD (fpar f x) 0)) ref ∧
    (∀ e, presF (f.set x (f.getD (fpar f x) 0)) e ↔ presF f e) ∧
    (∀ e, (f.set x (f.getD (fpar f x) 0)).getD e 0 = (e : Int) ↔
      f.getD e 0 = (e : Int)) ∧
    (f.set x (f.getD (fpar f x) 0)).length = f.length := by
  obtain ⟨h0x, hpp, hstx, hbx⟩ := hH x hx
  have hnr : f.getD x 0 ≠ (x : Int) := by
    intro he
    apply hnr2
    rw [(fpar_eq_iff f x h0x).mpr he, he]
  have hpx : fpar f x ≠ x := fun he => hnr ((fpar_eq_iff f x h0x).mp he)
  obtain ⟨h0p, hgp, hstp, hbp⟩ := hH (fpar f x) hpp
  have hpnr : f.getD (fpar f x) 0 ≠ ((fpar f x : Nat) : Int) := by
    intro he
    apply hnr2
    rw [he, fpar_cast f x h0x]
  have hgpne : fpar f (fpar f x) ≠ fpar f x :=
    fun he => hpnr ((fpar_eq_iff f (fpar f x) h0p).mp he)
  have hstrict2 : rkN rk x < rkN rk (fpar f (fpar f x)) :=
    lt_trans (hstx hpx) (hstp hgpne)
  have hgpx : fpar f (fpar f x) ≠ x := by
    intro he
    rw [he] at hstrict2
    omega
  have hlen : (f.set x (f.getD (fpar f x) 0)).length = f.length := by simp
  have hget : ∀ e, e ≠ x →
      (f.set x (f.getD (fpar f x) 0)).getD e 0 = f.getD e 0 := by
    intro e he
    exact getD_set_other _ _ _ _ _ he
  have hgetx : (f.set x (f.getD (fpar f x) 0)).getD x 0 = f.getD (fpar f x) 0 :=
    getD_set_self _ _ _ _ hx.1
  have hfparx : fpar (f.set x (f.getD (fpar f x) 0)) x = fpar f (fpar f x) := by
    show ((f.set x (f.getD (fpar f x) 0)).getD x 0).toNat = fpar f (fpar f x)
    rw [hgetx]
    rfl
  have hfpar : ∀ e, e ≠ x →
      fpar (f.set x (f.getD (fpar f x) 0)) e = fpar f e := by
    intro e he
    show ((f.set x (f.getD (fpar f x) 0)).getD e 0).toNat = (f.getD e 0).toNat
    rw [hget e he]
  have hpres : ∀ e, presF (f.set x (f.getD (fpar f x) 0)) e ↔ presF f e := by
    intro e
    by_cases he : e = x
    · rw [he]
      unfold presF
      rw [hgetx, hlen]
      constructor
      · rintro ⟨hl, _⟩
        exact hx
      · rintro ⟨hl, _⟩
        exact ⟨hl, by omega⟩
    · unfold presF
      rw [hget e he, hlen]
  refine ⟨?_, ?_, hpres, ?_, hlen⟩
  · intro e hpe
    rw [hpres e] at hpe
    by_cases he : e = x
    · rw [he]
      rw [hgetx, hfparx]
      refine ⟨h0p, (hpres _).mpr hgp, fun _ => ?_, ?_⟩
      · exact hstrict2
      · exact hbx
    · rw [hget e he, hfpar e he]
      obtain ⟨a1, a2, a3, a4⟩ := hH e hpe
      exact ⟨a1, (hpres _).mpr a2, a3, a4⟩
  · intro e hpe
    rw [hpres e] at hpe
    by_cases he : e = x
    · rw [he, hfparx]
      rw [hL (fpar f x) hpp, hL x hx]
    · rw [hfpar e he]
      exact hL e hpe
  · intro e
    by_cases he : e = x
    · rw [he, hgetx]
      constructor
      · intro hcontra
        exfalso
        apply hgpx
        have hdef : fpar f (fpar f x) = (f.getD (fpar f x) 0).toNat := rfl
        rw [hdef, hcontra]
        exact Int.toNat_natCast x
      · intro hcontra
        exact absurd hcontra hnr
    · rw [hget e he]

theorem halve_root_preserved (f rk : List Int) (ref : Ref) (B : Nat) (x : Nat)
    (hH : Hfor f rk B) (hL : Hlab f ref) (hB : B ≤ f.length) (hx : presF f x)
    (hnr2 : f.getD (fpar f x) 0 ≠ f.getD x 0) :
    ∀ y, presF f y → rootD (f.set x (f.getD (fpar f x) 0)) y = rootD f y := by
  obtain ⟨hH', hL', hpres', hroot', hlen'⟩ := halve_bundle f rk ref B x hH hL hx hnr2
  obtain ⟨h0x, hpp, hstx, hbx⟩ := hH x hx
  have hnr : f.getD x 0 ≠ (x : Int) := by
    intro he
    apply hnr2
    rw [(fpar_eq_iff f x h0x).mpr he, he]
  have hpx : fpar f x ≠ x := fun he => hnr ((fpar_eq_iff f x h0x).mp he)
  obtain ⟨h0p, hgp, hstp, hbp⟩ := hH (fpar f x) hpp
  have hpnr : f.getD (fpar f x) 0 ≠ ((fpar f x : Nat) : Int) := by
    intro he
    apply hnr2
    rw [he, fpar_cast f x h0x]
  have hstrict2 : rkN rk x < rkN rk (fpar f (fpar f x)) :=
    lt_trans (hstx hpx)
      (hstp (fun he => hpnr ((fpar_eq_iff f (fpar f x) h0p).mp he)))
  have hgetx : (f.set x (f.getD (fpar f x) 0)).getD x 0 = f.getD (fpar f x) 0 :=
    getD_set_self _ _ _ _ hx.1
  have hfparx : fpar (f.set x (f.getD (fpar f x) 0)) x = fpar f (fpar f x) := by
    show ((f.set x (f.getD (fpar f x) 0)).getD x 0).toNat = fpar f (fpar f x)
    rw [hgetx]
    rfl
  have hfpar : ∀ e, e ≠ x →
      fpar (f.set x (f.getD (fpar f x) 0)) e = fpar f e := by
    intro e he
    show ((f.set x (f.getD (fpar f x) 0)).getD e 0).toNat = (f.getD e 0).toNat
    rw [getD_set_other _ _ _ _ _ he]
  have hB' : B ≤ (f.set x (f.getD (fpar f x) 0)).length := by
    rw [hlen']
    exact hB
  suffices haux : ∀ k y, presF f y → B + 1 - rkN rk y ≤ k →
      rootD (f.set x (f.getD (fpar f x) 0)) y = rootD f y by
    intro y hy
    exact haux (B + 1) y hy (by omega)
  intro k
  induction k with
  | zero =>
    intro y hy hk
    have := (hH y hy).2.2.2
    omega
  | succ n ih =>
    intro y hy hk
    by_cases hyx : y = x
    · rw [hyx]
      have hxnr' : (f.set x (f.getD (fpar f x) 0)).getD x 0 ≠ (x : Int) :=
        fun hcon => hnr ((hroot' x).mp hcon)
      rw [rootD_parent (f.set x (f.getD (fpar f x) 0)) rk B hH' hB' x
        ((hpres' x).mpr hx) hxnr', hfparx]
      rw [ih (fpar f (fpar f x)) hgp (by rw [hyx] at hk; omega)]
      rw [rootD_parent f rk B hH hB x hx hnr,
        rootD_parent f rk B hH hB (fpar f x) hpp hpnr]
    · by_cases hroot : f.getD y 0 = (y : Int)
      · have hy' : (f.set x (f.getD (fpar f x) 0)).getD y 0 = (y : Int) :=
          (hroot' y).mpr hroot
        unfold rootD
        rw [hlen', rootF_succ, rootF_succ, if_pos hroot, if_pos hy']
      · have hynr' : (f.set x (f.getD (fpar f x) 0)).getD y 0 ≠ (y : Int) :=
          fun hcon => hroot ((hroot' y).mp hcon)
        obtain ⟨b0, bp, bstrict, bbound⟩ := hH y hy
        have hyne : fpar f y ≠ y := fun he => hroot ((fpar_eq_iff f y b0).mp he)
        rw [rootD_parent (f.set x (f.getD (fpar f x) 0)) rk B hH' hB' y
          ((hpres' y).mpr hy) hynr', hfpar y hyx]
        rw [ih (fpar f y) bp (by have := bstrict hyne; omega)]
        rw [rootD_parent f rk B hH hB y hy hroot]

theorem findLoop_spec (rk : List Int) (ref : Ref) (B : Nat) :
    ∀ (fuel : Nat) (f : List Int) (x : Nat),
      Hfor f rk B → Hlab f ref → B ≤ f.length → presF f x →
      B + 1 - rkN rk x ≤ fuel →
      ∃ f' r, findLoop f x fuel = some (f', r) ∧
        rootD f x = some r ∧
        f'.length = f.length ∧
        Hfor f' rk B ∧ Hlab f' ref ∧
        (∀ e, presF f' e ↔ presF f e) ∧
        (∀ y, presF f y → rootD f' y = rootD f y) ∧
        (∀ e, f'.getD e 0 = (e : Int) ↔ f.getD e 0 = (e : Int)) := by
  intro fuel
  induction fuel with
  | zero =>
    intro f x hH hL hB hx hk
    have := (hH x hx).2.2.2
    omega
  | succ n ih =>
    intro f x hH hL hB hx hk
    obtain ⟨h0x, hpp, hstx, hbx⟩ := hH x hx
    show ∃ f' r,
      (if f.getD (f.getD x 0).toNat 0 = f.getD x 0
        then some (f, (f.getD x 0).toNat)
        else findLoop (f.set x (f.getD (f.getD x 0).toNat 0))
          (f.getD (f.getD x 0).toNat 0).toNat n) = some (f', r) ∧ _
    by_cases hstop : f.getD (f.getD x 0).toNat 0 = f.getD x 0
    · rw [if_pos hstop]
      refine ⟨f, (f.getD x 0).toNat, rfl, ?_, rfl, hH, hL, fun e => Iff.rfl,
        fun y _ => rfl, fun e => Iff.rfl⟩
      -- the returned element is the root of x
      have hproot : f.getD (fpar f x) 0 = ((fpar f x : Nat) : Int) := by
        show f.getD (f.getD x 0).toNat 0 = _
        rw [hstop, fpar_cast f x h0x]
      by_cases hxr : f.getD x 0 = (x : Int)
      · have hfx : fpar f x = x := (fpar_eq_iff f x h0x).mpr hxr
        unfold rootD
        rw [rootF_succ, if_pos hxr]
        rw [show (f.getD x 0).toNat = x from hfx]
      · rw [rootD_parent f rk B hH hB x hx hxr]
        unfold rootD
        rw [rootF_succ, if_pos hproot]
        rfl
    · rw [if_neg hstop]
      have hnr2 : f.getD (fpar f x) 0 ≠ f.getD x 0 := hstop
      obtain ⟨hH', hL', hpres', hroot', hlen'⟩ :=
        halve_bundle f rk ref B x hH hL hx hnr2
      have hrpres := halve_root_preserved f rk ref B x hH hL hB hx hnr2
      have hnr : f.getD x 0 ≠ (x : Int) := by
        intro he
        apply hnr2
        rw [(fpar_eq_iff f x h0x).mpr he, he]
      have hpx : fpar f x ≠ x := fun he => hnr ((fpar_eq_iff f x h0x).mp he)
      obtain ⟨h0p, hgp, hstp, hbp⟩ := hH (fpar f x) hpp
      have hpnr : f.getD (fpar f x) 0 ≠ ((fpar f x : Nat) : Int) := by
        intro he
        apply hnr2
        rw [he, fpar_cast f x h0x]
      have hgpne : fpar f (fpar f x) ≠ fpar f x :=
        fun he => hpnr ((fpar_eq_iff f (fpar f x) h0p).mp he)
      have hstrict2 : rkN rk x < rkN rk (fpar f (fpar f x)) :=
        lt_trans (hstx hpx) (hstp hgpne)
      have hgpeq : (f.getD (f.getD x 0).toNat 0).toNat = fpar f (fpar f x) := rfl
      obtain ⟨f', r, hfind, hroot'', hlen'', hH'', hL'', hpres'', hrpres'', hroots''⟩ :=
        ih (f.set x (f.getD (fpar f x) 0)) (fpar f (fpar f x)) hH' hL'
          (by rw [hlen']; exact hB) ((hpres' _).mpr hgp) (by omega)
      refine ⟨f', r, ?_, ?_, by rw [hlen'', hlen'], hH'', hL'', ?_, ?_, ?_⟩
      · show findLoop (f.set x (f.getD (fpar f x) 0)) (fpar f (fpar f x)) n =
          some (f', r)
        exact hfind
      · rw [rootD_parent f rk B hH hB x hx hnr,
          rootD_parent f rk B hH hB (fpar f x) hpp hpnr]
        rw [← hrpres (fpar f (fpar f x)) hgp]
        exact hroot''
      · intro e
        rw [hpres'' e, hpres' e]
      · intro y hy
        rw [hrpres'' y ((hpres' y).mpr hy), hrpres y hy]
      · intro e
        rw [hroots'' e, hroot' e]

/-! ## Counting lemmas and the `find` wrapper. -/

theorem countRoots_congr (f f' : List Int) (hlen : f'.length = f.length)
    (hpres : ∀ e, presF f' e ↔ presF f e)
    (hroots : ∀ e, f'.getD e 0 = (e : Int) ↔ f.getD e 0 = (e : Int)) :
    countRoots f' = countRoots f := by
  unfold countRoots
  rw [hlen]
  congr 1
  apply List.filter_congr
  intro e _
  have h1 : decide (presF f' e) = decide (presF f e) := by
    simp only [decide_eq_decide]
    exact hpres e
  have h2 : decide (f'.getD e 0 = (e : Int)) = decide (f.getD e 0 = (e : Int)) := by
    simp only [decide_eq_decide]
    exact hroots e
  rw [h1, h2]

theorem refPresent_iff_mem_keys (ref : Ref) (e : Nat) :
    refPresent ref e = true ↔ e ∈ ref.map Prod.fst := by
  constructor
  · intro h
    unfold refPresent at h
    rcases hl : refLookup ref e with _ | c
    · rw [hl] at h; simp at h
    · exact List.mem_map.mpr ⟨(e, c), refLookup_mem hl, rfl⟩
  · intro h
    obtain ⟨p, hp, hfst⟩ := List.mem_map.mp h
    rcases p with ⟨p1, p2⟩
    simp only at hfst
    subst hfst
    exact refPresent_of_mem hp

theorem refLength_le (ref : Ref) (N : Nat) (hkeys : ∀ p ∈ ref, p.1 < N)
    (hnodup : (ref.map Prod.fst).Nodup) : ref.length ≤ N := by
  have h1 : (ref.map Prod.fst).length = ref.length := List.length_map _ _
  rw [← h1, ← List.toFinset_card_of_nodup hnodup]
  have hsub : (ref.map Prod.fst).toFinset ⊆ Finset.range N := by
    intro x hx
    rw [List.mem_toFinset, List.mem_map] at hx
    obtain ⟨p, hp, hfst⟩ := hx
    rw [Finset.mem_range, ← hfst]
    exact hkeys p hp
  calc (ref.map Prod.fst).toFinset.card ≤ (Finset.range N).card :=
        Finset.card_le_card hsub
    _ = N := Finset.card_range N

theorem presCount_eq_refLength (f : List Int) (ref : Ref)
    (hpres : ∀ e, presF f e ↔ refPresent ref e = true)
    (hkeys : ∀ p ∈ ref, p.1 < f.length)
    (hnodup : (ref.map Prod.fst).Nodup) :
    ((List.range f.length).filter (fun e => decide (presF f e))).length = ref.length := by
  have hkeyN : ∀ x ∈ ref.map Prod.fst, x < f.length := by
    intro x hx
    obtain ⟨p, hp, hfst⟩ := List.mem_map.mp hx
    rw [← hfst]
    exact hkeys p hp
  have hmem : ∀ x, x ∈ (List.range f.length).filter (fun e => decide (presF f e)) ↔
      x ∈ ref.map Prod.fst := by
    intro x
    rw [List.mem_filter, List.mem_range, decide_eq_true_iff]
    constructor
    · rintro ⟨_, hpx⟩
      exact (refPresent_iff_mem_keys ref x).mp ((hpres x).mp hpx)
    · intro hx
      have hp : presF f x := (hpres x).mpr ((refPresent_iff_mem_keys ref x).mpr hx)
      exact ⟨hp.1, hp⟩
  have hnd1 : ((List.range f.length).filter (fun e => decide (presF f e))).Nodup :=
    (List.nodup_range _).filter _
  have hfs : ((List.range f.length).filter (fun e => decide (presF f e))).toFinset =
      (ref.map Prod.fst).toFinset := by
    ext x
    rw [List.mem_toFinset, List.mem_toFinset]
    exact hmem x
  rw [← List.toFinset_card_of_nodup hnd1, hfs, List.toFinset_card_of_nodup hnodup]
  exact List.length_map _ _

theorem countRoots_le_presCount (f : List Int) :
    countRoots f ≤ ((List.range f.length).filter (fun e => decide (presF f e))).length := by
  unfold countRoots
  have h : (List.range f.length).filter
      (fun e => decide (presF f e) && decide (f.getD e 0 = (e : Int))) =
      ((List.range f.length).filter (fun e => decide (presF f e))).filter
        (fun e => decide (f.getD e 0 = (e : Int))) := by
    rw [List.filter_filter]
    congr 1
    funext e
    rw [Bool.and_comm]
  rw [h]
  exact List.length_filter_le _ _

theorem find_spec (du : DU) (ref : Ref) (hI : Inv du ref) (e : Nat)
    (he : present_p du e = true) :
    ∃ du' r, find du e = (Except.ok r, du') ∧
      rootD du.forest.array e = some r ∧
      du'.rank = du.rank ∧ du'.subset_count = du.subset_count ∧
      du'.forest.default_val = du.forest.default_val ∧
      Inv du' ref ∧
      (∀ y, presF du.forest.array y →
        rootD du'.forest.array y = rootD du.forest.array y) ∧
      (∀ y, presF du'.forest.array y ↔ presF du.forest.array y) ∧
      du'.forest.array.length = du.forest.array.length ∧
      (∀ x, du'.forest.array.getD x 0 = (x : Int) ↔
        du.forest.array.getD x 0 = (x : Int)) := by
  obtain ⟨hdv, hrdv, hrl, hpres, hkeys, hnodup, hH, hL, hnneg, hrkb, hcnt, hlab⟩ := hI
  have hBle : ref.length ≤ du.forest.array.length :=
    refLength_le ref _ (fun p hp => (hkeys p hp).1) hnodup
  have hpe : presF du.forest.array e := (present_p_iff du e).mp he
  obtain ⟨f', r, hloop, hrt, hlen, hH', hL', hpres', hrpres', hroots'⟩ :=
    findLoop_spec du.rank.array ref ref.length (du.forest.array.length + 1)
      du.forest.array e hH hL hBle hpe (by have := (hH e hpe).2.2.2; omega)
  refine ⟨{ du with forest := ⟨f', du.forest.default_val⟩ }, r, ?_, hrt, rfl, rfl, rfl,
    ?_, hrpres', hpres', hlen, hroots'⟩
  · unfold find
    simp only [he, Bool.not_true, Bool.false_eq_true, if_false]
    rw [hloop]
  · refine ⟨hdv, hrdv, by rw [hrl, hlen], ?_, ?_, hnodup, ?_, hL', ?_, ?_, ?_, ?_⟩
    · intro x
      rw [hpres' x]
      exact hpres x
    · intro p hp
      rw [hlen]
      exact hkeys p hp
    · exact hH'
    · intro x hx
      exact hnneg x ((hpres' x).mp hx)
    · intro x hx
      rw [hpres' x] at hx
      exact hrkb x hx
    · rw [hcnt]
      exact (countRoots_congr du.forest.array f' hlen hpres' hroots').symm
    · intro x y hx hy
      rw [hpres' x] at hx
      rw [hpres' y] at hy
      rw [hrpres' x hx, hrpres' y hy]
      exact hlab x y hx hy

theorem rootF_agree (f f' rk : List Int) (B : Nat) (hH : Hfor f rk B)
    (hagree : ∀ y, presF f y → f'.getD y 0 = f.getD y 0) :
    ∀ (k x : Nat), presF f x → B + 1 - rkN rk x ≤ k →
      ∀ fu, k ≤ fu → rootF f' x fu = rootF f x fu := by
  intro k
  induction k with
  | zero =>
    intro x hx hk
    have := (hH x hx).2.2.2
    omega
  | succ n ih =>
    intro x hx hk fu hfu
    obtain ⟨h0, hp, hstrict, hbound⟩ := hH x hx
    rcases fu with _ | m
    · omega
    · rw [rootF_succ, rootF_succ, hagree x hx]
      by_cases hroot : f.getD x 0 = (x : Int)
      · simp only [if_pos hroot]
      · simp only [if_neg hroot]
        have hne : fpar f x ≠ x := fun he => hroot ((fpar_eq_iff f x h0).mp he)
        have := hstrict hne
        exact ih (fpar f x) hp (by omega) m (by omega)

theorem rootD_congr (f f' rk : List Int) (B : Nat) (hH : Hfor f rk B)
    (hB : B ≤ f.length) (hlen : f.length ≤ f'.length)
    (hagree : ∀ y, presF f y → f'.getD y 0 = f.getD y 0) :
    ∀ x, presF f x → rootD f' x = rootD f x := by
  intro x hx
  obtain ⟨r, hr⟩ := rootF_isSome f rk B hH (f.length + 1) x hx
    (by have := (hH x hx).2.2.2; omega)
  have h1 : rootF f x (f'.length + 1) = some r :=
    rootF_mono hr (f'.length + 1) (by omega)
  have h2 : rootF f' x (f'.length + 1) = rootF f x (f'.length + 1) :=
    rootF_agree f f' rk B hH hagree (B + 1) x hx
      (by have := (hH x hx).2.2.2; omega) (f'.length + 1) (by omega)
  unfold rootD
  rw [h2, h1, hr]

theorem countP_flip_one (p q : Nat → Bool) (e : Nat) (hpe : p e = false)
    (hqe : q e = true) :
    ∀ (l : List Nat), l.Nodup → e ∈ l → (∀ x ∈ l, x ≠ e → p x = q x) →
      (l.filter q).length = (l.filter p).length + 1 := by
  intro l
  induction l with
  | nil => intro _ h; simp at h
  | cons a t ih =>
    intro hnd hmem hother
    rw [List.nodup_cons] at hnd
    by_cases ha : a = e
    · subst ha
      have ht : ∀ x ∈ t, p x = q x := by
        intro x hx
        exact hother x (List.mem_cons_of_mem a hx) (fun he => hnd.1 (he ▸ hx))
      have htp : t.filter p = t.filter q := List.filter_congr ht
      rw [List.filter_cons_of_pos hqe, List.filter_cons_of_neg (by rw [hpe]; simp)]
      rw [List.length_cons, htp]
    · have hmem' : e ∈ t := by
        rcases List.mem_cons.mp hmem with h | h
        · exact absurd h.symm ha
        · exact h
      have hih := ih hnd.2 hmem' (fun x hx => hother x (List.mem_cons_of_mem a hx))
      have hpa : p a = q a := hother a (List.mem_cons_self a t) ha
      by_cases hq : q a = true
      · rw [List.filter_cons_of_pos hq, List.filter_cons_of_pos (by rw [hpa]; exact hq)]
        rw [List.length_cons, List.length_cons, hih]
      · rw [List.filter_cons_of_neg hq, List.filter_cons_of_neg (by rw [hpa]; exact hq)]
        exact hih

theorem filter_range_ext (p : Nat → Bool) (N : Nat)
    (hout : ∀ x, N ≤ x → p x = false) :
    ∀ d, (List.range (N + d)).filter p = (List.range N).filter p := by
  intro d
  induction d with
  | zero => rfl
  | succ m ih =>
    rw [show N + (m + 1) = (N + m) + 1 by omega, List.range_succ, List.filter_append]
    have hnil : [N + m].filter p = [] := by
      simp [List.filter, hout (N + m) (by omega)]
    rw [hnil, List.append_nil]
    exact ih

/-! ## Invariant preservation: `make_set`. -/

theorem makeSet_step (du : DU) (ref : Ref) (hI : Inv du ref) (e : Nat) :
    present_p du e = refPresent ref e ∧
    Inv (add_new_element du e).2 (refStep ref (.makeSet e)) ∧
    (add_new_element du e).2.subset_count =
      (if refPresent ref e then du.subset_count else du.subset_count + 1) := by
  obtain ⟨hdv, hrdv, hrl, hpres, hkeys, hnodup, hH, hL, hnneg, hrkb, hcnt, hlab⟩ := hI
  have hpr : present_p du e = refPresent ref e := by
    rw [Bool.eq_iff_iff]
    exact (present_p_iff du e).trans (hpres e)
  by_cases hp : refPresent ref e = true
  · have hp' : present_p du e = true := by rw [hpr]; exact hp
    have hstate : (add_new_element du e).2 = du := by
      unfold add_new_element
      rw [hp']
      rfl
    have href : refStep ref (.makeSet e) = ref := by
      show (if refPresent ref e then ref else ref ++ [(e, e)]) = ref
      rw [hp]
      rfl
    rw [hstate, href, if_pos hp]
    exact ⟨hpr, ⟨hdv, hrdv, hrl, hpres, hkeys, hnodup, hH, hL, hnneg, hrkb, hcnt, hlab⟩,
      rfl⟩
  · have hpfalse : refPresent ref e = false := by
      rcases h : refPresent ref e
      · rfl
      · exact absurd h hp
    have hp' : present_p du e = false := by rw [hpr]; exact hpfalse
    have hnp : ¬ presF du.forest.array e := by
      intro h
      rw [(hpres e).mp h] at hpfalse
      simp at hpfalse
    have hstate : (add_new_element du e).2 =
        ⟨insertArray du.forest e (e : Int), insertArray du.rank e 0,
          du.subset_count + 1⟩ := by
      unfold add_new_element
      rw [hp']
      rfl
    have href : refStep ref (.makeSet e) = ref ++ [(e, e)] := by
      show (if refPresent ref e then ref else ref ++ [(e, e)]) = ref ++ [(e, e)]
      rw [hpfalse]
      rfl
    have hNle : du.forest.array.length ≤ (insertArray du.forest e (e : Int)).array.length :=
      insertArray_length_mono du.forest e (e : Int)
    have heN : e < (insertArray du.forest e (e : Int)).array.length :=
      insertArray_length_gt du.forest e (e : Int)
    have hlen2 : (insertArray du.rank e 0).array.length =
        (insertArray du.forest e (e : Int)).array.length := by
      rw [insertArray_length, insertArray_length, hrl]
    have hfe : (insertArray du.forest e (e : Int)).array.getD e 0 = (e : Int) :=
      insertArray_getD_self du.forest e (e : Int) 0
    have hfold : ∀ j, j ≠ e → j < du.forest.array.length →
        (insertArray du.forest e (e : Int)).array.getD j 0 = du.forest.array.getD j 0 :=
      fun j hj hlt => insertArray_getD_old du.forest e j (e : Int) 0 hj hlt
    have hfgap : ∀ j, j ≠ e → du.forest.array.length ≤ j →
        j < (insertArray du.forest e (e : Int)).array.length →
        (insertArray du.forest e (e : Int)).array.getD j 0 = -1 := by
      intro j h1 h2 h3
      rw [insertArray_getD_gap du.forest e j (e : Int) 0 h1 h2 h3, hdv]
    have hrke : (insertArray du.rank e 0).array.getD e 0 = 0 :=
      insertArray_getD_self du.rank e 0 0
    have hrkold : ∀ j, j ≠ e → j < du.forest.array.length →
        (insertArray du.rank e 0).array.getD j 0 = du.rank.array.getD j 0 := by
      intro j h1 h2
      exact insertArray_getD_old du.rank e j 0 0 h1 (by rw [hrl]; exact h2)
    have hprese : presF (insertArray du.forest e (e : Int)).array e := by
      refine ⟨heN, ?_⟩
      rw [hfe]
      omega
    have hpold : ∀ x, x ≠ e →
        (presF (insertArray du.forest e (e : Int)).array x ↔ presF du.forest.array x) := by
      intro x hx
      by_cases hlt : x < du.forest.array.length
      · unfold presF
        rw [hfold x hx hlt]
        constructor
        · rintro ⟨_, h2⟩
          exact ⟨hlt, h2⟩
        · rintro ⟨_, h2⟩
          exact ⟨by omega, h2⟩
      · constructor
        · rintro ⟨h1, h2⟩
          exact absurd (hfgap x hx (by omega) h1) h2
        · rintro ⟨h1, _⟩
          omega
    have hpresF2 : ∀ x, presF (insertArray du.forest e (e : Int)).array x ↔
        (x = e ∨ presF du.forest.array x) := by
      intro x
      by_cases hx : x = e
      · rw [hx]
        exact ⟨fun _ => Or.inl rfl, fun _ => hprese⟩
      · rw [hpold x hx]
        constructor
        · exact Or.inr
        · rintro (h | h)
          · exact absurd h hx
          · exact h
    have hlab2 : ∀ x, refLookup (ref ++ [(e, e)]) x =
        if x = e then some e else refLookup ref x :=
      fun x => refLookup_append_fresh ref e x hpfalse
    have hrefp2 : ∀ x, refPresent (ref ++ [(e, e)]) x = true ↔
        (x = e ∨ refPresent ref x = true) := by
      intro x
      unfold refPresent
      rw [hlab2 x]
      by_cases hx : x = e
      · rw [if_pos hx]
        simp [hx]
      · rw [if_neg hx]
        constructor
        · exact fun h => Or.inr h
        · rintro (h | h)
          · exact absurd h hx
          · exact h
    have hxe_old : ∀ x, presF du.forest.array x → x ≠ e :=
      fun x hx he => hnp (he ▸ hx)
    have hagree : ∀ y, presF du.forest.array y →
        (insertArray du.forest e (e : Int)).array.getD y 0 = du.forest.array.getD y 0 :=
      fun y hy => hfold y (hxe_old y hy) hy.1
    have hBle : ref.length ≤ du.forest.array.length :=
      refLength_le ref _ (fun p hp2 => (hkeys p hp2).1) hnodup
    have hroot_old : ∀ x, presF du.forest.array x →
        rootD (insertArray du.forest e (e : Int)).array x = rootD du.forest.array x :=
      rootD_congr du.forest.array _ du.rank.array ref.length hH hBle hNle hagree
    have hroote : rootD (insertArray du.forest e (e : Int)).array e = some e := by
      unfold rootD
      rw [rootF_succ, if_pos hfe]
    have hfpare : fpar (insertArray du.forest e (e : Int)).array e = e := by
      show ((insertArray du.forest e (e : Int)).array.getD e 0).toNat = e
      rw [hfe]
      exact Int.toNat_natCast e
    have hfpar_old : ∀ x, presF du.forest.array x →
        fpar (insertArray du.forest e (e : Int)).array x = fpar du.forest.array x := by
      intro x hx
      show ((insertArray du.forest e (e : Int)).array.getD x 0).toNat = _
      rw [hagree x hx]
      rfl
    have hrkN_old : ∀ x, presF du.forest.array x →
        rkN (insertArray du.rank e 0).array x = rkN du.rank.array x := by
      intro x hx
      show ((insertArray du.rank e 0).array.getD x 0).toNat = _
      rw [hrkold x (hxe_old x hx) hx.1]
      rfl
    have hlenref : (ref ++ [(e, e)]).length = ref.length + 1 := by simp
    rw [hstate, href, if_neg hp]
    refine ⟨hpr, ⟨?_, ?_, ?_, ?_, ?_, ?_, ?_, ?_, ?_, ?_, ?_, ?_⟩, rfl⟩
    · rw [insertArray_default_val]
      exact hdv
    · rw [insertArray_default_val]
      exact hrdv
    · exact hlen2
    · intro x
      rw [hpresF2 x, hrefp2 x]
      exact or_congr Iff.rfl (hpres x)
    · intro p hp2
      rcases List.mem_append.mp hp2 with hmem | hmem
      · exact ⟨lt_of_lt_of_le (hkeys p hmem).1 hNle,
          (hrefp2 p.2).mpr (Or.inr (hkeys p hmem).2)⟩
      · rw [List.mem_singleton] at hmem
        subst hmem
        exact ⟨heN, (hrefp2 e).mpr (Or.inl rfl)⟩
    · rw [List.map_append, List.nodup_append]
      refine ⟨hnodup, List.nodup_singleton e, ?_⟩
      intro a ha1 ha2
      simp only [List.map_cons, List.map_nil, List.mem_singleton] at ha2
      subst ha2
      rw [← refPresent_iff_mem_keys ref a] at ha1
      rw [ha1] at hpfalse
      simp at hpfalse
    · intro x hx
      rcases (hpresF2 x).mp hx with he | hold
      · subst he
        refine ⟨by rw [hfe]; omega, ?_, ?_, ?_⟩
        · rw [hfpare]
          exact hprese
        · intro hne
          exact absurd hfpare hne
        · show ((insertArray du.rank x 0).array.getD x 0).toNat ≤ _
          rw [hrke]
          simp
      · obtain ⟨a1, a2, a3, a4⟩ := hH x hold
        have hfp : presF du.forest.array (fpar du.forest.array x) := a2
        refine ⟨by rw [hagree x hold]; exact a1, ?_, ?_, ?_⟩
        · rw [hfpar_old x hold]
          exact (hpresF2 _).mpr (Or.inr a2)
        · intro hne
          rw [hfpar_old x hold] at hne ⊢
          rw [hrkN_old x hold, hrkN_old _ hfp]
          exact a3 hne
        · rw [hrkN_old x hold, hlenref]
          omega
    · intro x hx
      rcases (hpresF2 x).mp hx with he | hold
      · subst he
        rw [hfpare]
      · rw [hfpar_old x hold, hlab2 x, hlab2 (fpar du.forest.array x),
          if_neg (hxe_old x hold), if_neg (hxe_old _ (hH x hold).2.1)]
        exact hL x hold
    · intro x hx
      rcases (hpresF2 x).mp hx with he | hold
      · subst he
        rw [hrke]
      · rw [hrkold x (hxe_old x hold) hold.1]
        exact hnneg x hold
    · intro x hx
      rcases (hpresF2 x).mp hx with he | hold
      · subst he
        show ((insertArray du.rank x 0).array.getD x 0).toNat + _ ≤ _
        rw [hrke, hlenref]
        have h1 := countRoots_le_presCount du.forest.array
        have h2 := presCount_eq_refLength du.forest.array ref hpres
          (fun p hp2 => (hkeys p hp2).1) hnodup
        simp only
        omega
      · rw [hrkN_old x hold, hlenref]
        have := hrkb x hold
        simp only
        omega
    · show du.subset_count + 1 = countRoots (insertArray du.forest e (e : Int)).array
      have hext : (List.range (insertArray du.forest e (e : Int)).array.length).filter
          (fun x => decide (presF du.forest.array x) &&
            decide (du.forest.array.getD x 0 = (x : Int))) =
          (List.range du.forest.array.length).filter
          (fun x => decide (presF du.forest.array x) &&
            decide (du.forest.array.getD x 0 = (x : Int))) := by
        have h := filter_range_ext
          (fun x => decide (presF du.forest.array x) &&
            decide (du.forest.array.getD x 0 = (x : Int)))
          du.forest.array.length
          (by
            intro x hxN
            have : ¬ presF du.forest.array x := fun h => by
              have := h.1
              omega
            simp [this])
          ((insertArray du.forest e (e : Int)).array.length - du.forest.array.length)
        rw [show du.forest.array.length +
            ((insertArray du.forest e (e : Int)).array.length - du.forest.array.length) =
            (insertArray du.forest e (e : Int)).array.length by omega] at h
        exact h
      have hflip := countP_flip_one
        (fun x => decide (presF du.forest.array x) &&
          decide (du.forest.array.getD x 0 = (x : Int)))
        (fun x => decide (presF (insertArray du.forest e (e : Int)).array x) &&
          decide ((insertArray du.forest e (e : Int)).array.getD x 0 = (x : Int)))
        e (by simp [hnp]) (by simp only [hprese, hfe]; simp)
        (List.range (insertArray du.forest e (e : Int)).array.length)
        (List.nodup_range _) (List.mem_range.mpr heN)
        (by
          intro x _ hxe
          by_cases hpx : presF du.forest.array x
          · simp only [hfold x hxe hpx.1]
            congr 1
            simp only [decide_eq_decide]
            exact (hpold x hxe).symm
          · have hpx2 : ¬ presF (insertArray du.forest e (e : Int)).array x :=
              fun h => hpx ((hpold x hxe).mp h)
            simp [hpx, hpx2])
      unfold countRoots
      rw [hflip, hext]
      rw [hcnt]
      rfl
    · intro x y hx hy
      rcases (hpresF2 x).mp hx with hex | holdx
      · rcases (hpresF2 y).mp hy with hey | holdy
        · subst hex
          subst hey
          exact ⟨fun _ => rfl, fun _ => rfl⟩
        · subst hex
          obtain ⟨c, hc⟩ := Option.isSome_iff_exists.mp ((hpres y).mp holdy)
          have hcmem := refLookup_mem hc
          have hcpres := (hkeys (y, c) hcmem).2
          have hce : c ≠ x := by
            intro hce
            rw [hce] at hcpres
            rw [hcpres] at hpfalse
            simp at hpfalse
          obtain ⟨r, hr⟩ := rootF_isSome du.forest.array du.rank.array ref.length hH
            (du.forest.array.length + 1) y holdy
            (by have := (hH y holdy).2.2.2; omega)
          have hrpres : presF du.forest.array r :=
            (rootF_props du.forest.array du.rank.array ref ref.length hH hL _ y r holdy
              hr).1
          have hre : r ≠ x := hxe_old r hrpres
          have hrd : rootD du.forest.array y = some r := hr
          rw [hlab2 x, hlab2 y, if_pos rfl, if_neg (hxe_old y holdy), hroote,
            hroot_old y holdy, hc, hrd]
          constructor
          · intro h
            exact absurd (Option.some.inj h).symm hce
          · intro h
            exact absurd (Option.some.inj h).symm hre
      · rcases (hpresF2 y).mp hy with hey | holdy
        · subst hey
          obtain ⟨c, hc⟩ := Option.isSome_iff_exists.mp ((hpres x).mp holdx)
          have hcmem := refLookup_mem hc
          have hcpres := (hkeys (x, c) hcmem).2
          have hce : c ≠ y := by
            intro hce
            rw [hce] at hcpres
            rw [hcpres] at hpfalse
            simp at hpfalse
          obtain ⟨r, hr⟩ := rootF_isSome du.forest.array du.rank.array ref.length hH
            (du.forest.array.length + 1) x holdx
            (by have := (hH x holdx).2.2.2; omega)
          have hrpres : presF du.forest.array r :=
            (rootF_props du.forest.array du.rank.array ref ref.length hH hL _ x r holdx
              hr).1
          have hre : r ≠ y := hxe_old r hrpres
          have hrd : rootD du.forest.array x = some r := hr
          rw [hlab2 y, hlab2 x, if_pos rfl, if_neg (hxe_old x holdx), hroote,
            hroot_old x holdx, hc, hrd]
          constructor
          · intro h
            exact absurd (Option.some.inj h) hce
          · intro h
            exact absurd (Option.some.inj h) hre
        · rw [hlab2 x, hlab2 y, if_neg (hxe_old x holdx), if_neg (hxe_old y holdy),
            hroot_old x holdx, hroot_old y holdy]
          exact hlab x y holdx holdy

/-! ## Linking two roots: forest-level effects. -/

theorem rootD_fix (f : List Int) (x : Nat) (h : f.getD x 0 = (x : Int)) :
    rootD f x = some x := by
  unfold rootD
  rw [rootF_succ, if_pos h]

theorem root_mem_filter (f : List Int) (r : Nat) (hp : presF f r)
    (hr : f.getD r 0 = (r : Int)) :
    r ∈ (List.range f.length).filter
      (fun e => decide (presF f e) && decide (f.getD e 0 = (e : Int))) := by
  rw [List.mem_filter]
  refine ⟨List.mem_range.mpr hp.1, ?_⟩
  rw [hr]
  simp [hp]

theorem countRoots_pos (f : List Int) (r : Nat) (hp : presF f r)
    (hr : f.getD r 0 = (r : Int)) : 1 ≤ countRoots f := by
  unfold countRoots
  have hmem := root_mem_filter f r hp hr
  have hne := List.ne_nil_of_mem hmem
  exact List.length_pos.mpr hne

theorem countRoots_two (f : List Int) (r1 r2 : Nat) (h12 : r1 ≠ r2)
    (hp1 : presF f r1) (hr1 : f.getD r1 0 = (r1 : Int))
    (hp2 : presF f r2) (hr2 : f.getD r2 0 = (r2 : Int)) : 2 ≤ countRoots f := by
  unfold countRoots
  set l := (List.range f.length).filter
    (fun e => decide (presF f e) && decide (f.getD e 0 = (e : Int))) with hl
  have hm1 : r1 ∈ l := root_mem_filter f r1 hp1 hr1
  have hm2 : r2 ∈ l := root_mem_filter f r2 hp2 hr2
  have hnd : l.Nodup := List.Nodup.filter _ (List.nodup_range _)
  have hcard : l.toFinset.card = l.length := List.toFinset_card_of_nodup hnd
  have hsub : ({r1, r2} : Finset Nat) ⊆ l.toFinset := by
    intro x hx
    rcases Finset.mem_insert.mp hx with h | h
    · subst h; exact List.mem_toFinset.mpr hm1
    · rw [Finset.mem_singleton] at h; subst h; exact List.mem_toFinset.mpr hm2
  have h2 : ({r1, r2} : Finset Nat).card = 2 := Finset.card_pair h12
  have := Finset.card_le_card hsub
  omega

theorem collapse_iff (g s x y : Nat) (hgs : g ≠ s) :
    ((if x = g then s else x) = (if y = g then s else y)) ↔
      (x = y ∨ ((x = g ∨ x = s) ∧ (y = g ∨ y = s))) := by
  by_cases hx : x = g
  · by_cases hy : y = g
    · rw [if_pos hx, if_pos hy]; omega
    · rw [if_pos hx, if_neg hy]; omega
  · by_cases hy : y = g
    · rw [if_neg hx, if_pos hy]; omega
    · rw [if_neg hx, if_neg hy]; omega

set_option maxHeartbeats 1000000 in
theorem merge_label_iff (la lb ra rb c p lx ly rx ry : Nat)
    (hll : la ≠ lb) (hab : ra ≠ rb)
    (hcp : (c = ra ∧ p = rb) ∨ (c = rb ∧ p = ra))
    (hxa : lx = la ↔ rx = ra) (hxb : lx = lb ↔ rx = rb)
    (hya : ly = la ↔ ry = ra) (hyb : ly = lb ↔ ry = rb)
    (hxy : lx = ly ↔ rx = ry) :
    ((if lx = lb then la else lx) = (if ly = lb then la else ly) ↔
      (if rx = c then p else rx) = (if ry = c then p else ry)) := by
  have h1 := collapse_iff lb la lx ly (Ne.symm hll)
  rcases hcp with ⟨hc1, hc2⟩ | ⟨hc1, hc2⟩ <;> subst hc1 <;> subst hc2
  · have h2 := collapse_iff c p rx ry hab
    rw [h1, h2]
    clear h1 h2
    omega
  · have h2 := collapse_iff c p rx ry (Ne.symm hab)
    rw [h1, h2]
    clear h1 h2
    omega

theorem linkF_spec (f rk rk' : List Int) (B B' : Nat) (r1 r2 : Nat)
    (hH : Hfor f rk B) (hB : B ≤ f.length) (hB'f : B' ≤ f.length)
    (hp1 : presF f r1) (hp2 : presF f r2)
    (hroot1 : f.getD r1 0 = (r1 : Int)) (hroot2 : f.getD r2 0 = (r2 : Int))
    (hne : r2 ≠ r1)
    (hagree : ∀ y, y ≠ r1 → rk'.getD y 0 = rk.getD y 0)
    (hge : rkN rk r1 ≤ rkN rk' r1)
    (hlt2 : rkN rk r2 < rkN rk' r1)
    (hB1 : rkN rk' r1 ≤ B')
    (hBB' : B ≤ B') :
    (f.set r2 (r1 : Int)).length = f.length ∧
    (∀ e, presF (f.set r2 (r1 : Int)) e ↔ presF f e) ∧
    Hfor (f.set r2 (r1 : Int)) rk' B' ∧
    (∀ e, (f.set r2 (r1 : Int)).getD e 0 = (e : Int) ↔
      (f.getD e 0 = (e : Int) ∧ e ≠ r2)) ∧
    (∀ y, presF f y → rootD (f.set r2 (r1 : Int)) y =
      if rootD f y = some r2 then some r1 else rootD f y) := by
  have hlen : (f.set r2 (r1 : Int)).length = f.length := List.length_set f r2 _
  have hg2 : (f.set r2 (r1 : Int)).getD r2 0 = (r1 : Int) :=
    getD_set_self f r2 0 _ hp2.1
  have hgo : ∀ y, y ≠ r2 → (f.set r2 (r1 : Int)).getD y 0 = f.getD y 0 :=
    fun y hy => getD_set_other f r2 y 0 _ hy
  have hpres : ∀ e, presF (f.set r2 (r1 : Int)) e ↔ presF f e := by
    intro e
    by_cases he : e = r2
    · subst he
      constructor
      · intro _; exact hp2
      · intro _
        refine ⟨by rw [hlen]; exact hp2.1, ?_⟩
        rw [hg2]
        omega
    · unfold presF
      rw [hgo e he, hlen]
  have hfpc : fpar (f.set r2 (r1 : Int)) r2 = r1 := by
    unfold fpar
    rw [hg2]
    exact Int.toNat_natCast r1
  have hfpo : ∀ y, y ≠ r2 → fpar (f.set r2 (r1 : Int)) y = fpar f y := by
    intro y hy
    unfold fpar
    rw [hgo y hy]
  have hrkeq : ∀ y, y ≠ r1 → rkN rk' y = rkN rk y := by
    intro y hy
    unfold rkN
    rw [hagree y hy]
  have hH' : Hfor (f.set r2 (r1 : Int)) rk' B' := by
    intro e hpe
    rw [hpres e] at hpe
    by_cases he : e = r2
    · subst he
      refine ⟨by rw [hg2]; omega, ?_, ?_, ?_⟩
      · rw [hfpc, hpres r1]
        exact hp1
      · intro _
        rw [hfpc, hrkeq e hne]
        exact hlt2
      · rw [hrkeq e hne]
        have := (hH e hpe).2.2.2
        omega
    · obtain ⟨a1, a2, a3, a4⟩ := hH e hpe
      refine ⟨by rw [hgo e he]; exact a1, ?_, ?_, ?_⟩
      · rw [hfpo e he, hpres _]
        exact a2
      · intro hne'
        rw [hfpo e he] at hne' ⊢
        by_cases her1 : e = r1
        · subst her1
          exact absurd ((fpar_eq_iff f e (by rw [hroot1]; omega)).mpr hroot1) hne'
        · rw [hrkeq e her1]
          have h2 := a3 hne'
          by_cases hpr : fpar f e = r1
          · rw [hpr] at h2 ⊢
            omega
          · rw [hrkeq _ hpr]
            exact h2
      · by_cases her1 : e = r1
        · subst her1
          exact hB1
        · rw [hrkeq e her1]
          omega
  have hroots : ∀ e, (f.set r2 (r1 : Int)).getD e 0 = (e : Int) ↔
      (f.getD e 0 = (e : Int) ∧ e ≠ r2) := by
    intro e
    by_cases he : e = r2
    · subst he
      rw [hg2]
      constructor
      · intro h
        exact absurd (Nat.cast_inj.mp h).symm hne
      · rintro ⟨_, h⟩
        exact absurd rfl h
    · rw [hgo e he]
      exact ⟨fun h => ⟨h, he⟩, fun h => h.1⟩
  have hr1ne2 : r1 ≠ r2 := Ne.symm hne
  have hfix1 : (f.set r2 (r1 : Int)).getD r1 0 = (r1 : Int) := by
    rw [hgo r1 hr1ne2]
    exact hroot1
  have hroot1D : rootD (f.set r2 (r1 : Int)) r1 = some r1 := rootD_fix _ r1 hfix1
  have hroot2D : rootD f r2 = some r2 := rootD_fix f r2 hroot2
  have haux : ∀ k y, presF f y → B + 1 - rkN rk y ≤ k →
      rootD (f.set r2 (r1 : Int)) y =
        if rootD f y = some r2 then some r1 else rootD f y := by
    intro k
    induction k with
    | zero =>
      intro y hy hk
      have := (hH y hy).2.2.2
      omega
    | succ n ih =>
      intro y hy hk
      by_cases hy2 : y = r2
      · subst hy2
        rw [hroot2D, if_pos rfl]
        have hne2 : (f.set y (r1 : Int)).getD y 0 ≠ (y : Int) := by
          rw [hg2]
          intro h
          exact hne (Nat.cast_inj.mp h).symm
        rw [rootD_parent (f.set y (r1 : Int)) rk' B' hH' (by rw [hlen]; exact hB'f) y
          ((hpres y).mpr hy) hne2, hfpc]
        exact hroot1D
      · by_cases hroot : f.getD y 0 = (y : Int)
        · have h1 : rootD f y = some y := rootD_fix f y hroot
          have h2 : rootD (f.set r2 (r1 : Int)) y = some y :=
            rootD_fix _ y (by rw [hgo y hy2]; exact hroot)
          rw [h1, h2, if_neg]
          intro h
          exact hy2 (Option.some.inj h)
        · obtain ⟨a1, a2, a3, a4⟩ := hH y hy
          have hne' : fpar f y ≠ y := fun h => hroot ((fpar_eq_iff f y a1).mp h)
          have hZ1 : rootD f y = rootD f (fpar f y) :=
            rootD_parent f rk B hH hB y hy hroot
          have hnr' : (f.set r2 (r1 : Int)).getD y 0 ≠ (y : Int) := by
            rw [hgo y hy2]
            exact hroot
          have hZ2 : rootD (f.set r2 (r1 : Int)) y =
              rootD (f.set r2 (r1 : Int)) (fpar (f.set r2 (r1 : Int)) y) :=
            rootD_parent _ rk' B' hH' (by rw [hlen]; exact hB'f) y
              ((hpres y).mpr hy) hnr'
          rw [hZ1, hZ2, hfpo y hy2]
          exact ih (fpar f y) a2 (by have := a3 hne'; omega)
  exact ⟨hlen, hpres, hH', hroots, fun y hy => haux (B + 1) y hy (by omega)⟩

theorem refPresent_map_merge (ref : Ref) (la lb : Nat) :
    ∀ e, refPresent (ref.map (fun q => if q.2 = lb then (q.1, la) else q)) e =
      refPresent ref e := by
  intro e
  unfold refPresent
  rw [refLookup_map_merge]
  cases refLookup ref e <;> rfl

theorem keys_map_merge (ref : Ref) (la lb : Nat) :
    (ref.map (fun q => if q.2 = lb then (q.1, la) else q)).map Prod.fst =
      ref.map Prod.fst := by
  rw [List.map_map]
  apply List.map_congr_left
  intro q _
  by_cases h : q.2 = lb <;> simp [h]

/-- Re-establishing the coupling invariant after `link_roots` attached the
root `c` under the root `p` and the reference relabelled `lb` to `la`. -/
theorem merged_inv (du2 : DU) (ref : Ref) (hI2 : Inv du2 ref) (a b la lb c p : Nat)
    (rk' : CArr)
    (hpa : presF du2.forest.array a) (hpb : presF du2.forest.array b)
    (hla : refLookup ref a = some la) (hlb : refLookup ref b = some lb)
    (hll : la ≠ lb)
    (ra rb : Nat)
    (hra : rootD du2.forest.array a = some ra)
    (hrb : rootD du2.forest.array b = some rb)
    (hcp : (c = ra ∧ p = rb) ∨ (c = rb ∧ p = ra))
    (hrdv' : rk'.default_val = 0)
    (hrklen' : rk'.array.length = du2.rank.array.length)
    (hagree : ∀ y, y ≠ p → rk'.array.getD y 0 = du2.rank.array.getD y 0)
    (hnneg' : ∀ y, presF du2.forest.array y → 0 ≤ rk'.array.getD y 0)
    (hge : rkN du2.rank.array p ≤ rkN rk'.array p)
    (hltcp : rkN du2.rank.array c < rkN rk'.array p)
    (hB1 : rkN rk'.array p + (du2.subset_count - 1) ≤ ref.length) :
    Inv ⟨⟨du2.forest.array.set c (p : Int), du2.forest.default_val⟩, rk',
        du2.subset_count - 1⟩
      (ref.map (fun q => if q.2 = lb then (q.1, la) else q)) ∧
    1 ≤ du2.subset_count := by
  obtain ⟨hdv2, hrdv2, hrl2, hpres2, hkeys2, hnodup2, hH2, hL2, hnneg2, hrkb2, hcnt2,
    hlab2⟩ := hI2
  have hBle2 : ref.length ≤ du2.forest.array.length :=
    refLength_le ref _ (fun q hq => (hkeys2 q hq).1) hnodup2
  obtain ⟨hpra, hfixa, hlraA⟩ :=
    rootF_props du2.forest.array du2.rank.array ref ref.length hH2 hL2
      (du2.forest.array.length + 1) a ra hpa hra
  obtain ⟨hprb, hfixb, hlrbB⟩ :=
    rootF_props du2.forest.array du2.rank.array ref ref.length hH2 hL2
      (du2.forest.array.length + 1) b rb hpb hrb
  have hrarb : ra ≠ rb := by
    intro h
    apply hll
    have h1 : refLookup ref a = refLookup ref b := by
      apply (hlab2 a b hpa hpb).mpr
      rw [hra, hrb, h]
    rw [hla, hlb] at h1
    exact Option.some.inj h1
  have hcpne : c ≠ p := by
    rcases hcp with ⟨h1, h2⟩ | ⟨h1, h2⟩
    · rw [h1, h2]
      exact hrarb
    · rw [h1, h2]
      exact Ne.symm hrarb
  have hpc : presF du2.forest.array c := by
    rcases hcp with ⟨h1, _⟩ | ⟨h1, _⟩
    · rw [h1]; exact hpra
    · rw [h1]; exact hprb
  have hpp : presF du2.forest.array p := by
    rcases hcp with ⟨_, h2⟩ | ⟨_, h2⟩
    · rw [h2]; exact hprb
    · rw [h2]; exact hpra
  have hfixc : du2.forest.array.getD c 0 = (c : Int) := by
    rcases hcp with ⟨h1, _⟩ | ⟨h1, _⟩
    · rw [h1]; exact hfixa
    · rw [h1]; exact hfixb
  have hfixp : du2.forest.array.getD p 0 = (p : Int) := by
    rcases hcp with ⟨_, h2⟩ | ⟨_, h2⟩
    · rw [h2]; exact hfixb
    · rw [h2]; exact hfixa
  have hcount1 : 1 ≤ du2.subset_count := by
    rw [hcnt2]
    exact countRoots_pos du2.forest.array c hpc hfixc
  obtain ⟨hlenL, hpresL, hHL, hrootsL, hmergeL⟩ :=
    linkF_spec du2.forest.array du2.rank.array rk'.array ref.length ref.length p c
      hH2 hBle2 hBle2 hpp hpc hfixp hfixc hcpne hagree hge hltcp (by omega) le_rfl
  have hlook' : ∀ e, refLookup (ref.map (fun q => if q.2 = lb then (q.1, la) else q)) e =
      (refLookup ref e).map (fun v => if v = lb then la else v) :=
    fun e => refLookup_map_merge ref la lb e
  have hrp' := refPresent_map_merge ref la lb
  have hlen' : (ref.map (fun q => if q.2 = lb then (q.1, la) else q)).length =
      ref.length := List.length_map ref _
  have hlpa : refLookup ref ra = some la := by rw [hlraA]; exact hla
  have hlpb : refLookup ref rb = some lb := by rw [hlrbB]; exact hlb
  have hkeyA : ∀ x, presF du2.forest.array x →
      (refLookup ref x = some la ↔ rootD du2.forest.array x = some ra) := by
    intro x hx
    have h := hlab2 x a hx hpa
    rw [hla, hra] at h
    exact h
  have hkeyB : ∀ x, presF du2.forest.array x →
      (refLookup ref x = some lb ↔ rootD du2.forest.array x = some rb) := by
    intro x hx
    have h := hlab2 x b hx hpb
    rw [hlb, hrb] at h
    exact h
  refine ⟨⟨hdv2, hrdv', ?_, ?_, ?_, ?_, ?_, ?_, ?_, ?_, ?_, ?_⟩, hcount1⟩
  · show rk'.array.length = (du2.forest.array.set c (p : Int)).length
    rw [hrklen', hrl2]
    exact hlenL.symm
  · intro e
    show presF (du2.forest.array.set c (p : Int)) e ↔ _
    rw [hrp' e]
    exact (hpresL e).trans (hpres2 e)
  · intro q hq
    obtain ⟨q0, hq0mem, hq0eq⟩ := List.mem_map.mp hq
    have hlen_g : q0.1 < (du2.forest.array.set c (p : Int)).length := by
      rw [hlenL]
      exact (hkeys2 q0 hq0mem).1
    by_cases hq2 : q0.2 = lb
    · rw [if_pos hq2] at hq0eq
      subst hq0eq
      refine ⟨hlen_g, ?_⟩
      rw [hrp' la]
      exact (hkeys2 (a, la) (refLookup_mem hla)).2
    · rw [if_neg hq2] at hq0eq
      subst hq0eq
      refine ⟨hlen_g, ?_⟩
      rw [hrp' q0.2]
      exact (hkeys2 q0 hq0mem).2
  · show ((ref.map (fun q => if q.2 = lb then (q.1, la) else q)).map Prod.fst).Nodup
    rw [keys_map_merge]
    exact hnodup2
  · show Hfor (du2.forest.array.set c (p : Int)) rk'.array _
    rw [hlen']
    exact hHL
  · intro e he
    have he2 : presF du2.forest.array e :=
      (hpresL e).mp he
    show refLookup (ref.map (fun q => if q.2 = lb then (q.1, la) else q))
        (fpar (du2.forest.array.set c (p : Int)) e) = _
    by_cases hec : e = c
    · rw [hec]
      have hfp : fpar (du2.forest.array.set c (p : Int)) c = p := by
        unfold fpar
        rw [getD_set_self du2.forest.array c 0 _ hpc.1]
        exact Int.toNat_natCast p
      rw [hfp, hlook' p, hlook' c]
      rcases hcp with ⟨h1, h2⟩ | ⟨h1, h2⟩
      · rw [h2, hlpb, h1, hlpa]
        simp [hll]
      · rw [h2, hlpa, h1, hlpb]
        simp [hll]
    · have hfp : fpar (du2.forest.array.set c (p : Int)) e = fpar du2.forest.array e := by
        unfold fpar
        rw [getD_set_other du2.forest.array c e 0 _ hec]
      rw [hfp, hlook' _, hlook' e, hL2 e he2]
  · intro e he
    exact hnneg' e ((hpresL e).mp he)
  · intro e he
    have he2 : presF du2.forest.array e := (hpresL e).mp he
    show rkN rk'.array e + (du2.subset_count - 1) ≤ _
    rw [hlen']
    by_cases hep : e = p
    · rw [hep]
      exact hB1
    · have h1 : rkN rk'.array e = rkN du2.rank.array e := by
        unfold rkN
        rw [hagree e hep]
      rw [h1]
      have := hrkb2 e he2
      omega
  · show du2.subset_count - 1 = countRoots (du2.forest.array.set c (p : Int))
    have hqc : (decide (presF du2.forest.array c) &&
        decide (du2.forest.array.getD c 0 = (c : Int))) = true := by
      rw [hfixc]
      simp [hpc]
    have hpcF : (decide (presF (du2.forest.array.set c (p : Int)) c) &&
        decide ((du2.forest.array.set c (p : Int)).getD c 0 = (c : Int))) = false := by
      rw [getD_set_self du2.forest.array c 0 _ hpc.1]
      have hne2 : ¬ ((p : Int) = (c : Int)) := by
        intro h
        exact hcpne (Nat.cast_inj.mp h).symm
      simp [hne2]
    have hflip := countP_flip_one
      (fun x => decide (presF (du2.forest.array.set c (p : Int)) x) &&
        decide ((du2.forest.array.set c (p : Int)).getD x 0 = (x : Int)))
      (fun x => decide (presF du2.forest.array x) &&
        decide (du2.forest.array.getD x 0 = (x : Int)))
      c hpcF hqc
      (List.range (du2.forest.array.set c (p : Int)).length)
      (List.nodup_range _)
      (List.mem_range.mpr (by rw [hlenL]; exact hpc.1))
      (by
        intro x _ hxc
        simp only [getD_set_other du2.forest.array c x 0 _ hxc]
        congr 1
        simp only [decide_eq_decide]
        exact hpresL x)
    have hc2 : countRoots du2.forest.array =
        ((List.range (du2.forest.array.set c (p : Int)).length).filter
          (fun x => decide (presF (du2.forest.array.set c (p : Int)) x) &&
            decide ((du2.forest.array.set c (p : Int)).getD x 0 = (x : Int)))).length
          + 1 := by
      unfold countRoots
      rw [← hlenL]
      exact hflip
    rw [hcnt2, hc2]
    unfold countRoots
    omega
  · intro x y hx hy
    have hx2 : presF du2.forest.array x := (hpresL x).mp hx
    have hy2 : presF du2.forest.array y := (hpresL y).mp hy
    obtain ⟨lx, hlx⟩ := Option.isSome_iff_exists.mp ((hpres2 x).mp hx2)
    obtain ⟨ly, hly⟩ := Option.isSome_iff_exists.mp ((hpres2 y).mp hy2)
    obtain ⟨rx, hrx⟩ := rootF_isSome du2.forest.array du2.rank.array ref.length hH2
      (du2.forest.array.length + 1) x hx2 (by have := (hH2 x hx2).2.2.2; omega)
    obtain ⟨ry, hry⟩ := rootF_isSome du2.forest.array du2.rank.array ref.length hH2
      (du2.forest.array.length + 1) y hy2 (by have := (hH2 y hy2).2.2.2; omega)
    have hrxD : rootD du2.forest.array x = some rx := hrx
    have hryD : rootD du2.forest.array y = some ry := hry
    have kxa : lx = la ↔ rx = ra := by
      have h := hkeyA x hx2
      rw [hlx, hrxD] at h
      simpa using h
    have kxb : lx = lb ↔ rx = rb := by
      have h := hkeyB x hx2
      rw [hlx, hrxD] at h
      simpa using h
    have kya : ly = la ↔ ry = ra := by
      have h := hkeyA y hy2
      rw [hly, hryD] at h
      simpa using h
    have kyb : ly = lb ↔ ry = rb := by
      have h := hkeyB y hy2
      rw [hly, hryD] at h
      simpa using h
    have kxy : lx = ly ↔ rx = ry := by
      have h := hlab2 x y hx2 hy2
      rw [hlx, hly, hrxD, hryD] at h
      simpa using h
    have hLx : refLookup (ref.map (fun q => if q.2 = lb then (q.1, la) else q)) x =
        some (if lx = lb then la else lx) := by
      rw [hlook' x, hlx]
      rfl
    have hLy : refLookup (ref.map (fun q => if q.2 = lb then (q.1, la) else q)) y =
        some (if ly = lb then la else ly) := by
      rw [hlook' y, hly]
      rfl
    have hRx : rootD (du2.forest.array.set c (p : Int)) x =
        some (if rx = c then p else rx) := by
      rw [hmergeL x hx2, hrxD]
      by_cases h : rx = c
      · rw [if_pos (by rw [h]), if_pos h]
      · rw [if_neg (fun hc => h (Option.some.inj hc)), if_neg h]
    have hRy : rootD (du2.forest.array.set c (p : Int)) y =
        some (if ry = c then p else ry) := by
      rw [hmergeL y hy2, hryD]
      by_cases h : ry = c
      · rw [if_pos (by rw [h]), if_pos h]
      · rw [if_neg (fun hc => h (Option.some.inj hc)), if_neg h]
    show refLookup (ref.map (fun q => if q.2 = lb then (q.1, la) else q)) x =
        refLookup (ref.map (fun q => if q.2 = lb then (q.1, la) else q)) y ↔
        rootD (du2.forest.array.set c (p : Int)) x =
          rootD (du2.forest.array.set c (p : Int)) y
    rw [hLx, hLy, hRx, hRy]
    simp only [Option.some.injEq]
    exact merge_label_iff la lb ra rb c p lx ly rx ry hll hrarb hcp kxa kxb kya kyb kxy

theorem bool_eq_false {b : Bool} (h : ¬ b = true) : b = false := by
  cases b
  · rfl
  · exact absurd rfl h

/-- Effect of one `unite` call on a state coupled to the reference:
the invariant transfers to the merged reference partition, `subset_count`
drops by exactly the `stepKM` increment, and every error is one of the
precondition errors with the state unchanged. -/
theorem unite_step (du : DU) (ref : Ref) (hI : Inv du ref) (a b : Nat) :
    Inv (unite du a b).2 (refStep ref (DUOp.uniteEl a b)) ∧
    (unite du a b).2.subset_count + uniteDelta ref a b = du.subset_count ∧
    (∀ err, (unite du a b).1 = Except.error err →
      (err = DUErr.unknownElement ∨ err = DUErr.selfUnion) ∧ (unite du a b).2 = du) := by
  by_cases hpa : present_p du a = true
  case neg =>
    have hpa0 : present_p du a = false := bool_eq_false hpa
    have hueq : unite du a b = (Except.error DUErr.unknownElement, du) := by
      unfold unite
      rw [hpa0]
      rfl
    have hra : refLookup ref a = none := by
      rcases h : refLookup ref a with _ | v
      · rfl
      · exfalso
        have hp : refPresent ref a = true := by
          unfold refPresent
          rw [h]
          rfl
        have h2 := (hI.2.2.2.1 a).mpr hp
        rw [← present_p_iff] at h2
        rw [h2] at hpa0
        simp at hpa0
    have hstep : refStep ref (DUOp.uniteEl a b) = ref := by
      show (match refLookup ref a, refLookup ref b with
        | some la, some lb => if a = b then ref else if la = lb then ref
            else ref.map (fun q => if q.2 = lb then (q.1, la) else q)
        | _, _ => ref) = ref
      rw [hra]
    rw [hueq, hstep]
    refine ⟨hI, ?_, ?_⟩
    · show du.subset_count + uniteDelta ref a b = du.subset_count
      unfold uniteDelta
      rw [hra]
      cases refLookup ref b <;> rfl
    · intro err herr
      refine ⟨Or.inl ?_, rfl⟩
      have h2 : (Except.error DUErr.unknownElement : Except DUErr Unit) =
          Except.error err := herr
      injection h2 with h3
      exact h3.symm
  case pos =>
  by_cases hpb : present_p du b = true
  case neg =>
    have hpb0 : present_p du b = false := bool_eq_false hpb
    have hueq : unite du a b = (Except.error DUErr.unknownElement, du) := by
      unfold unite
      rw [hpa, hpb0]
      rfl
    obtain ⟨la, hla⟩ := Option.isSome_iff_exists.mp
      ((hI.2.2.2.1 a).mp ((present_p_iff du a).mp hpa))
    have hrb : refLookup ref b = none := by
      rcases h : refLookup ref b with _ | v
      · rfl
      · exfalso
        have hp : refPresent ref b = true := by
          unfold refPresent
          rw [h]
          rfl
        have h2 := (hI.2.2.2.1 b).mpr hp
        rw [← present_p_iff] at h2
        rw [h2] at hpb0
        simp at hpb0
    have hstep : refStep ref (DUOp.uniteEl a b) = ref := by
      show (match refLookup ref a, refLookup ref b with
        | some la', some lb' => if a = b then ref else if la' = lb' then ref
            else ref.map (fun q => if q.2 = lb' then (q.1, la') else q)
        | _, _ => ref) = ref
      rw [hla, hrb]
    rw [hueq, hstep]
    refine ⟨hI, ?_, ?_⟩
    · show du.subset_count + uniteDelta ref a b = du.subset_count
      unfold uniteDelta
      rw [hla, hrb]
      rfl
    · intro err herr
      refine ⟨Or.inl ?_, rfl⟩
      have h2 : (Except.error DUErr.unknownElement : Except DUErr Unit) =
          Except.error err := herr
      injection h2 with h3
      exact h3.symm
  case pos =>
  by_cases hab : a = b
  · subst hab
    have hueq : unite du a a = (Except.error DUErr.selfUnion, du) := by
      unfold unite
      simp only [hpa, Bool.not_true, Bool.false_eq_true, if_false]
      simp only [if_true]
    obtain ⟨la, hla⟩ := Option.isSome_iff_exists.mp
      ((hI.2.2.2.1 a).mp ((present_p_iff du a).mp hpa))
    have hstep : refStep ref (DUOp.uniteEl a a) = ref := by
      show (match refLookup ref a, refLookup ref a with
        | some la', some lb' => if a = a then ref else if la' = lb' then ref
            else ref.map (fun q => if q.2 = lb' then (q.1, la') else q)
        | _, _ => ref) = ref
      rw [hla]
      show (if a = a then ref else _) = ref
      rw [if_pos rfl]
    have hdelta : uniteDelta ref a a = 0 := by
      unfold uniteDelta
      rw [hla]
      show (if a ≠ a ∧ la ≠ la then 1 else 0) = 0
      rw [if_neg (fun h => h.1 rfl)]
    rw [hueq, hstep]
    refine ⟨hI, ?_, ?_⟩
    · show du.subset_count + uniteDelta ref a a = du.subset_count
      rw [hdelta]
      omega
    · intro err herr
      refine ⟨Or.inr ?_, rfl⟩
      have h2 : (Except.error DUErr.selfUnion : Except DUErr Unit) =
          Except.error err := herr
      injection h2 with h3
      exact h3.symm
  · -- both present, distinct
    obtain ⟨du1, r1, hfind1, hrootDa, hrank1, hcount1, hdv1, hInv1, hrpres1, hpresIff1,
      hlen1, hroots1⟩ := find_spec du ref hI a hpa
    have hpb1 : present_p du1 b = true :=
      (present_p_iff du1 b).mpr ((hpresIff1 b).mpr ((present_p_iff du b).mp hpb))
    obtain ⟨du2, r2, hfind2, hrootDb1, hrank2, hcount2, hdv2, hInv2, hrpres2, hpresIff2,
      hlen2, hroots2⟩ := find_spec du1 ref hInv1 b hpb1
    have hunite : unite du a b =
        (if r1 = r2 then (Except.ok (), du2)
          else (Except.ok (), link_roots du2 r1 r2)) := by
      unfold unite
      simp only [hpa, hpb, Bool.not_true, Bool.false_eq_true, if_false, if_neg hab]
      rw [hfind1]
      show (match find du1 b with
        | (Except.ok root2, du2') =>
          if r1 = root2 then (Except.ok (), du2')
          else (Except.ok (), link_roots du2' r1 root2)
        | (Except.error e, du2') => (Except.error e, du2')) = _
      rw [hfind2]
    have hpFa : presF du.forest.array a := (present_p_iff du a).mp hpa
    have hpFb : presF du.forest.array b := (present_p_iff du b).mp hpb
    obtain ⟨hdvI, hrdvI, hrlI, hpresI, hkeysI, hnodupI, hHI, hLI, hnnegI, hrkbI, hcntI,
      hlabI⟩ := hI
    obtain ⟨hpr1, hfix1, hlr1⟩ :=
      rootF_props du.forest.array du.rank.array ref ref.length hHI hLI
        (du.forest.array.length + 1) a r1 hpFa hrootDa
    have hInv1c := hInv1
    obtain ⟨hdvI1, hrdvI1, hrlI1, hpresI1, hkeysI1, hnodupI1, hHI1, hLI1, hnnegI1,
      hrkbI1, hcntI1, hlabI1⟩ := hInv1c
    have hpFb1 : presF du1.forest.array b := (hpresIff1 b).mpr hpFb
    obtain ⟨hpr2, hfix2, hlr2⟩ :=
      rootF_props du1.forest.array du1.rank.array ref ref.length hHI1 hLI1
        (du1.forest.array.length + 1) b r2 hpFb1 hrootDb1
    have hpr1f1 : presF du1.forest.array r1 := (hpresIff1 r1).mpr hpr1
    have hp1f2 : presF du2.forest.array r1 := (hpresIff2 r1).mpr hpr1f1
    have hp2f2 : presF du2.forest.array r2 := (hpresIff2 r2).mpr hpr2
    have hfix1f1 : du1.forest.array.getD r1 0 = (r1 : Int) := (hroots1 r1).mpr hfix1
    have hfix1f2 : du2.forest.array.getD r1 0 = (r1 : Int) := (hroots2 r1).mpr hfix1f1
    have hfix2f2 : du2.forest.array.getD r2 0 = (r2 : Int) := (hroots2 r2).mpr hfix2
    have hpFa2 : presF du2.forest.array a :=
      (hpresIff2 a).mpr ((hpresIff1 a).mpr hpFa)
    have hpFb2 : presF du2.forest.array b := (hpresIff2 b).mpr hpFb1
    have hrootaf2 : rootD du2.forest.array a = some r1 := by
      rw [hrpres2 a ((hpresIff1 a).mpr hpFa), hrpres1 a hpFa]
      exact hrootDa
    have hrootbf2 : rootD du2.forest.array b = some r2 := by
      rw [hrpres2 b hpFb1]
      exact hrootDb1
    obtain ⟨la, hla⟩ := Option.isSome_iff_exists.mp ((hpresI a).mp hpFa)
    obtain ⟨lb, hlb⟩ := Option.isSome_iff_exists.mp ((hpresI b).mp hpFb)
    have hrootb : rootD du.forest.array b = some r2 := by
      rw [← hrpres1 b hpFb]
      exact hrootDb1
    have hInv2c := hInv2
    obtain ⟨hdv2', hrdv2', hrl2', hpres2', hkeys2', hnodup2', hH2', hL2', hnneg2',
      hrkb2', hcnt2', hlab2'⟩ := hInv2c
    by_cases hr12 : r1 = r2
    · have hlleq : la = lb := by
        have h1 : refLookup ref a = refLookup ref b := by
          apply (hlabI a b hpFa hpFb).mpr
          rw [hrootDa, hrootb, hr12]
        rw [hla, hlb] at h1
        exact Option.some.inj h1
      have hstep : refStep ref (DUOp.uniteEl a b) = ref := by
        show (match refLookup ref a, refLookup ref b with
          | some la', some lb' => if a = b then ref else if la' = lb' then ref
              else ref.map (fun q => if q.2 = lb' then (q.1, la') else q)
          | _, _ => ref) = ref
        rw [hla, hlb]
        show (if a = b then ref else if la = lb then ref else _) = ref
        rw [if_neg hab, if_pos hlleq]
      have hdelta : uniteDelta ref a b = 0 := by
        unfold uniteDelta
        rw [hla, hlb]
        show (if a ≠ b ∧ la ≠ lb then 1 else 0) = 0
        rw [if_neg (fun h => h.2 hlleq)]
      rw [hunite, if_pos hr12, hstep]
      refine ⟨hInv2, ?_, ?_⟩
      · show du2.subset_count + uniteDelta ref a b = du.subset_count
        rw [hdelta, hcount2, hcount1]
        omega
      · intro err herr
        have h2 : (Except.ok () : Except DUErr Unit) = Except.error err := herr
        exact Except.noConfusion h2
    · have hllne : la ≠ lb := by
        intro h
        apply hr12
        have h1 : refLookup ref a = refLookup ref b := by rw [hla, hlb, h]
        have h2 := (hlabI a b hpFa hpFb).mp h1
        rw [hrootDa, hrootb] at h2
        exact Option.some.inj h2
      have hstep : refStep ref (DUOp.uniteEl a b) =
          ref.map (fun q => if q.2 = lb then (q.1, la) else q) := by
        show (match refLookup ref a, refLookup ref b with
          | some la', some lb' => if a = b then ref else if la' = lb' then ref
              else ref.map (fun q : Nat × Nat => if q.2 = lb' then (q.1, la') else q)
          | _, _ => ref) = _
        rw [hla, hlb]
        show (if a = b then ref else if la = lb then ref
          else ref.map (fun q => if q.2 = lb then (q.1, la) else q)) = _
        rw [if_neg hab, if_neg hllne]
      have hdelta : uniteDelta ref a b = 1 := by
        unfold uniteDelta
        rw [hla, hlb]
        show (if a ≠ b ∧ la ≠ lb then 1 else 0) = 1
        rw [if_pos ⟨hab, hllne⟩]
      have hcnteq : du2.subset_count = du.subset_count := by
        rw [hcount2, hcount1]
      have hcntpos : 1 ≤ du2.subset_count := by
        rw [hcnt2']
        exact countRoots_pos du2.forest.array r1 hp1f2 hfix1f2
      rw [hunite, if_neg hr12, hstep]
      rcases lt_trichotomy (du2.rank.array.getD r1 0) (du2.rank.array.getD r2 0)
        with hc | hc | hc
      · -- rank r1 < rank r2 : attach r1 under r2
        have hlink : link_roots du2 r1 r2 =
            ⟨⟨du2.forest.array.set r1 (r2 : Int), du2.forest.default_val⟩, du2.rank,
              du2.subset_count - 1⟩ := by
          unfold link_roots
          rw [if_neg (lt_asymm hc), if_neg (ne_of_lt hc)]
        have hrkNlt : rkN du2.rank.array r1 < rkN du2.rank.array r2 := by
          have h0 := hnneg2' r1 hp1f2
          unfold rkN
          omega
        obtain ⟨hINV, _⟩ := merged_inv du2 ref hInv2 a b la lb r1 r2 du2.rank
          hpFa2 hpFb2 hla hlb hllne r1 r2 hrootaf2 hrootbf2 (Or.inl ⟨rfl, rfl⟩)
          hrdv2' rfl (fun _ _ => rfl) hnneg2' (le_refl _) hrkNlt
          (by
            have h1 := hrkb2' r2 hp2f2
            omega)
        rw [hlink]
        refine ⟨hINV, ?_, ?_⟩
        · show du2.subset_count - 1 + uniteDelta ref a b = du.subset_count
          rw [hdelta]
          omega
        · intro err herr
          have h2 : (Except.ok () : Except DUErr Unit) = Except.error err := herr
          exact Except.noConfusion h2
      · -- equal ranks : attach r2 under r1, bump rank of r1
        have hlink : link_roots du2 r1 r2 =
            ⟨⟨du2.forest.array.set r2 (r1 : Int), du2.forest.default_val⟩,
              ⟨du2.rank.array.set r1 (du2.rank.array.getD r1 0 + 1),
                du2.rank.default_val⟩,
              du2.subset_count - 1⟩ := by
          unfold link_roots
          rw [if_neg (by rw [hc]; exact lt_irrefl _), if_pos hc]
        have hr1len : r1 < du2.rank.array.length := by
          rw [hrl2']
          exact hp1f2.1
        have hsetself : (du2.rank.array.set r1 (du2.rank.array.getD r1 0 + 1)).getD r1 0 =
            du2.rank.array.getD r1 0 + 1 :=
          getD_set_self du2.rank.array r1 0 _ hr1len
        have hcnt2pos : 2 ≤ du2.subset_count := by
          rw [hcnt2']
          exact countRoots_two du2.forest.array r1 r2 hr12 hp1f2 hfix1f2 hp2f2 hfix2f2
        have h0r1 := hnneg2' r1 hp1f2
        have h0r2 := hnneg2' r2 hp2f2
        obtain ⟨hINV, _⟩ := merged_inv du2 ref hInv2 a b la lb r2 r1
          ⟨du2.rank.array.set r1 (du2.rank.array.getD r1 0 + 1), du2.rank.default_val⟩
          hpFa2 hpFb2 hla hlb hllne r1 r2 hrootaf2 hrootbf2 (Or.inr ⟨rfl, rfl⟩)
          hrdv2' (List.length_set _ _ _)
          (fun y hy => getD_set_other du2.rank.array r1 y 0 _ hy)
          (by
            intro y hy
            by_cases hyr : y = r1
            · rw [hyr]
              show 0 ≤ (du2.rank.array.set r1 (du2.rank.array.getD r1 0 + 1)).getD r1 0
              rw [hsetself]
              omega
            · show 0 ≤ (du2.rank.array.set r1 (du2.rank.array.getD r1 0 + 1)).getD y 0
              rw [getD_set_other du2.rank.array r1 y 0 _ hyr]
              exact hnneg2' y hy)
          (by
            show rkN du2.rank.array r1 ≤
              rkN (du2.rank.array.set r1 (du2.rank.array.getD r1 0 + 1)) r1
            unfold rkN
            rw [hsetself]
            omega)
          (by
            show rkN du2.rank.array r2 <
              rkN (du2.rank.array.set r1 (du2.rank.array.getD r1 0 + 1)) r1
            unfold rkN
            rw [hsetself, ← hc]
            omega)
          (by
            show rkN (du2.rank.array.set r1 (du2.rank.array.getD r1 0 + 1)) r1 +
              (du2.subset_count - 1) ≤ ref.length
            unfold rkN
            rw [hsetself]
            have h1 := hrkb2' r1 hp1f2
            unfold rkN at h1
            omega)
        rw [hlink]
        refine ⟨hINV, ?_, ?_⟩
        · show du2.subset_count - 1 + uniteDelta ref a b = du.subset_count
          rw [hdelta]
          omega
        · intro err herr
          have h2 : (Except.ok () : Except DUErr Unit) = Except.error err := herr
          exact Except.noConfusion h2
      · -- rank r1 > rank r2 : attach r2 under r1
        have hlink : link_roots du2 r1 r2 =
            ⟨⟨du2.forest.array.set r2 (r1 : Int), du2.forest.default_val⟩, du2.rank,
              du2.subset_count - 1⟩ := by
          unfold link_roots
          rw [if_pos hc]
        have hrkNlt : rkN du2.rank.array r2 < rkN du2.rank.array r1 := by
          have h0 := hnneg2' r2 hp2f2
          unfold rkN
          omega
        obtain ⟨hINV, _⟩ := merged_inv du2 ref hInv2 a b la lb r2 r1 du2.rank
          hpFa2 hpFb2 hla hlb hllne r1 r2 hrootaf2 hrootbf2 (Or.inr ⟨rfl, rfl⟩)
          hrdv2' rfl (fun _ _ => rfl) hnneg2' (le_refl _) hrkNlt
          (by
            have h1 := hrkb2' r1 hp1f2
            omega)
        rw [hlink]
        refine ⟨hINV, ?_, ?_⟩
        · show du2.subset_count - 1 + uniteDelta ref a b = du.subset_count
          rw [hdelta]
          omega
        · intro err herr
          have h2 : (Except.ok () : Except DUErr Unit) = Except.error err := herr
          exact Except.noConfusion h2

theorem add_new_element_err (du : DU) (e : Nat) :
    ∀ err, (add_new_element du e).1 = Except.error err →
      err = DUErr.duplicateElement ∧ (add_new_element du e).2 = du := by
  intro err herr
  unfold add_new_element at herr ⊢
  by_cases hp : present_p du e = true
  · rw [if_pos hp] at herr ⊢
    refine ⟨?_, rfl⟩
    have h2 : (Except.error DUErr.duplicateElement : Except DUErr Unit) =
        Except.error err := herr
    injection h2 with h3
    exact h3.symm
  · rw [if_neg hp] at herr
    have h2 : (Except.ok () : Except DUErr Unit) = Except.error err := herr
    exact Except.noConfusion h2

theorem findEl_step (du : DU) (ref : Ref) (hI : Inv du ref) (e : Nat) :
    Inv (find du e).2 ref ∧ (find du e).2.subset_count = du.subset_count ∧
    (∀ err, (find du e).1 = Except.error err →
      err = DUErr.unknownElement ∧ (find du e).2 = du) := by
  by_cases hp : present_p du e = true
  · obtain ⟨du', r, hfind, _, _, hcnt, _, hInv', _, _, _, _⟩ := find_spec du ref hI e hp
    rw [hfind]
    refine ⟨hInv', hcnt, ?_⟩
    intro err herr
    have h2 : (Except.ok r : Except DUErr Nat) = Except.error err := herr
    exact Except.noConfusion h2
  · have hp0 : present_p du e = false := bool_eq_false hp
    have hfind : find du e = (Except.error DUErr.unknownElement, du) := by
      unfold find
      rw [hp0]
      rfl
    rw [hfind]
    refine ⟨hI, rfl, ?_⟩
    intro err herr
    refine ⟨?_, rfl⟩
    have h2 : (Except.error DUErr.unknownElement : Except DUErr Nat) =
        Except.error err := herr
    injection h2 with h3
    exact h3.symm

/-! ## The freshly constructed structure satisfies the invariant. -/

theorem replicate_getD (n : Nat) (c : Int) (i : Nat) :
    (List.replicate n c).getD i 0 = if i < n then c else 0 := by
  rw [List.getD_eq_getElem?_getD, List.getElem?_replicate]
  by_cases h : i < n
  · rw [if_pos h, if_pos h]
    rfl
  · rw [if_neg h, if_neg h]
    rfl

theorem alloc_inv : Inv disjoint_union_alloc [] := by
  have hnop : ∀ e, ¬ presF (List.replicate 100 (-1 : Int)) e := by
    intro e he
    obtain ⟨h1, h2⟩ := he
    rw [List.length_replicate] at h1
    rw [replicate_getD, if_pos h1] at h2
    exact h2 rfl
  refine ⟨rfl, rfl, rfl, ?_, ?_, ?_, ?_, ?_, ?_, ?_, ?_, ?_⟩
  · intro e
    constructor
    · intro h
      exact absurd h (hnop e)
    · intro h
      exfalso
      rw [show refPresent [] e = false from rfl] at h
      exact Bool.false_ne_true h
  · intro q hq
    exact absurd hq (List.not_mem_nil q)
  · simp
  · intro e he
    exact absurd he (hnop e)
  · intro e he
    exact absurd he (hnop e)
  · intro e he
    exact absurd he (hnop e)
  · intro e he
    exact absurd he (hnop e)
  · show (0 : Nat) = countRoots (List.replicate 100 (-1 : Int))
    have hnil : (List.range (List.replicate 100 (-1 : Int)).length).filter
        (fun e => decide (presF (List.replicate 100 (-1 : Int)) e) &&
          decide ((List.replicate 100 (-1 : Int)).getD e 0 = (e : Int))) = [] := by
      rw [List.filter_eq_nil_iff]
      intro x _
      intro hcontra
      rw [Bool.and_eq_true] at hcontra
      exact hnop x (of_decide_eq_true hcontra.1)
    unfold countRoots
    rw [hnil]
    rfl
  · intro x y hx _
    exact absurd hx (hnop x)

theorem init_inv (n : Nat) :
    Inv (disjoint_union_init n) (refInit n) ∧
    (disjoint_union_init n).subset_count = n := by
  induction n with
  | zero =>
    exact ⟨alloc_inv, rfl⟩
  | succ m ih =>
    obtain ⟨hI, hc⟩ := ih
    have h1 : disjoint_union_init (m + 1) =
        (add_new_element (disjoint_union_init m) m).2 := by
      unfold disjoint_union_init
      rw [List.range_succ, List.foldl_append]
      rfl
    have hlook : refPresent (refInit m) m = false := by
      unfold refPresent
      rw [refInit_lookup m m]
      simp
    have h2 : refInit (m + 1) = refStep (refInit m) (DUOp.makeSet m) := by
      show refInit (m + 1) =
        (if refPresent (refInit m) m then refInit m else refInit m ++ [(m, m)])
      rw [if_neg (by rw [hlook]; exact Bool.false_ne_true)]
      unfold refInit
      rw [List.range_succ, List.map_append]
      rfl
    obtain ⟨hpr, hI', hcnt'⟩ := makeSet_step (disjoint_union_init m) (refInit m) hI m
    rw [h1, h2]
    refine ⟨hI', ?_⟩
    rw [hlook] at hcnt'
    simp only [Bool.false_eq_true, if_false] at hcnt'
    rw [hcnt', hc]

/-! ## The driver: running an operation sequence preserves the coupling. -/

theorem stepKM_uniteEl (ref : Ref) (k m : Nat) (a b : Nat) :
    stepKM (ref, k, m) (DUOp.uniteEl a b) =
      (refStep ref (DUOp.uniteEl a b), k, m + uniteDelta ref a b) := by
  show (refStep ref (DUOp.uniteEl a b), k,
    (match refLookup ref a, refLookup ref b with
      | some la, some lb => if a ≠ b ∧ la ≠ lb then m + 1 else m
      | _, _ => m)) = _
  unfold uniteDelta
  rcases ha : refLookup ref a with _ | la
  · rfl
  · rcases hb : refLookup ref b with _ | lb
    · rfl
    · show (refStep ref (DUOp.uniteEl a b), k,
        (if a ≠ b ∧ la ≠ lb then m + 1 else m)) =
        (refStep ref (DUOp.uniteEl a b), k, m + (if a ≠ b ∧ la ≠ lb then 1 else 0))
      by_cases h : a ≠ b ∧ la ≠ lb
      · rw [if_pos h, if_pos h]
      · rw [if_neg h, if_neg h]
        rfl

theorem foldl_inv (ops : List DUOp) :
    ∀ du ref k m, Inv du ref → du.subset_count + m = k →
      Inv (ops.foldl stepDU du) ((ops.foldl stepKM (ref, k, m)).1) ∧
      (ops.foldl stepKM (ref, k, m)).1 = ops.foldl refStep ref ∧
      (ops.foldl stepDU du).subset_count + (ops.foldl stepKM (ref, k, m)).2.2 =
        (ops.foldl stepKM (ref, k, m)).2.1 := by
  induction ops with
  | nil =>
    intro du ref k m hI hkm
    exact ⟨hI, rfl, hkm⟩
  | cons op t ih =>
    intro du ref k m hI hkm
    rw [List.foldl_cons, List.foldl_cons, List.foldl_cons]
    cases op with
    | makeSet e =>
      obtain ⟨hpr, hI', hcnt'⟩ := makeSet_step du ref hI e
      have hs : stepKM (ref, k, m) (DUOp.makeSet e) =
          (refStep ref (DUOp.makeSet e),
            (if refPresent ref e then k else k + 1), m) := rfl
      rw [hs]
      apply ih
      · exact hI'
      · show (add_new_element du e).2.subset_count + m =
          (if refPresent ref e then k else k + 1)
        rw [hcnt']
        by_cases hp : refPresent ref e = true
        · rw [if_pos hp, if_pos hp]
          exact hkm
        · rw [if_neg hp, if_neg hp]
          omega
    | findEl e =>
      obtain ⟨hI', hcnt', _⟩ := findEl_step du ref hI e
      have hs : stepKM (ref, k, m) (DUOp.findEl e) = (ref, k, m) := rfl
      rw [hs]
      apply ih
      · exact hI'
      · show (find du e).2.subset_count + m = k
        rw [hcnt']
        exact hkm
    | uniteEl a b =>
      obtain ⟨hI', hcnt', _⟩ := unite_step du ref hI a b
      rw [stepKM_uniteEl ref k m a b]
      apply ih
      · exact hI'
      · show (unite du a b).2.subset_count + (m + uniteDelta ref a b) = k
        omega

theorem runDU_inv (n : Nat) (ops : List DUOp) :
    Inv (runDU n ops) (runRef n ops) ∧
    (runDU n ops).subset_count + countM n ops = countK n ops := by
  obtain ⟨hI, hc⟩ := init_inv n
  obtain ⟨h1, h2, h3⟩ := foldl_inv ops (disjoint_union_init n) (refInit n) n 0 hI
    (by omega)
  constructor
  · show Inv (ops.foldl stepDU (disjoint_union_init n))
      (ops.foldl refStep (refInit n))
    rw [← h2]
    exact h1
  · exact h3

/-! ## Claims C1, C5, C7, C8. -/

/-- C1: after any sequence of `make_set`/`unite`/`find` calls from a fresh
`DisjointSet(n)`, for any two present elements `x` and `y` the two `find`
calls succeed and return equal roots exactly when `x` and `y` lie in the same
class of the naive reference partition built from the same call sequence. -/
theorem find_iff_connected (n : Nat) (ops : List DUOp) (x y : Nat)
    (hx : refPresent (runRef n ops) x = true)
    (hy : refPresent (runRef n ops) y = true) :
    ∃ du1 rx du2 ry,
      find (runDU n ops) x = (Except.ok rx, du1) ∧
      find du1 y = (Except.ok ry, du2) ∧
      ((rx = ry) ↔ refLookup (runRef n ops) x = refLookup (runRef n ops) y) := by
  have hI := (runDU_inv n ops).1
  have hIc := hI
  obtain ⟨hdv, hrdv, hrl, hpres, hkeys, hnodup, hH, hL, hnneg, hrkb, hcnt, hlab⟩ := hIc
  have hpFx : presF (runDU n ops).forest.array x := (hpres x).mpr hx
  have hpFy : presF (runDU n ops).forest.array y := (hpres y).mpr hy
  obtain ⟨du1, rx, hfind1, hrootx, _, _, _, hInv1, hrpres1, hpresIff1, _, _⟩ :=
    find_spec (runDU n ops) (runRef n ops) hI x ((present_p_iff _ x).mpr hpFx)
  have hpy1 : present_p du1 y = true :=
    (present_p_iff du1 y).mpr ((hpresIff1 y).mpr hpFy)
  obtain ⟨du2, ry, hfind2, hrooty1, _, _, _, _, _, _, _, _⟩ :=
    find_spec du1 (runRef n ops) hInv1 y hpy1
  refine ⟨du1, rx, du2, ry, hfind1, hfind2, ?_⟩
  have hry : rootD (runDU n ops).forest.array y = some ry := by
    rw [← hrpres1 y hpFy]
    exact hrooty1
  constructor
  · intro h
    apply (hlab x y hpFx hpFy).mpr
    rw [hrootx, hry, h]
  · intro h
    have h2 := (hlab x y hpFx hpFy).mp h
    rw [hrootx, hry] at h2
    exact Option.some.inj h2

theorem find_iff_connected_witness :
    refPresent (runRef 3 [DUOp.uniteEl 0 1]) 0 = true ∧
    refPresent (runRef 3 [DUOp.uniteEl 0 1]) 2 = true ∧
    (∃ du1 rx du2 ry,
      find (runDU 3 [DUOp.uniteEl 0 1]) 0 = (Except.ok rx, du1) ∧
      find du1 2 = (Except.ok ry, du2) ∧
      ((rx = ry) ↔ refLookup (runRef 3 [DUOp.uniteEl 0 1]) 0 =
        refLookup (runRef 3 [DUOp.uniteEl 0 1]) 2)) :=
  ⟨by decide, by decide,
    find_iff_connected 3 [DUOp.uniteEl 0 1] 0 2 (by decide) (by decide)⟩

/-- C5: after any operation sequence, `subset_count` equals the number `k` of
successful `make_set` calls (constructor elements included) minus the number
`m` of `unite` calls that actually merged two distinct subsets; failed calls
and no-op unites contribute to neither count. -/
theorem subset_count_k_minus_m (n : Nat) (ops : List DUOp) :
    (runDU n ops).subset_count = countK n ops - countM n ops ∧
    (runDU n ops).subset_count + countM n ops = countK n ops := by
  have h := (runDU_inv n ops).2
  exact ⟨by omega, h⟩

/-- C7: whenever `unite` reaches two distinct roots `r1` (for its first
argument) and `r2` (for its second), it links them by rank: `r2` is attached
below `r1` when `rank r1 > rank r2` with no rank change, `r1` below `r2` when
`rank r1 < rank r2` with no rank change, and on equal ranks `r2` is attached
below `r1` and `r1`'s rank grows by exactly one; `subset_count` decreases by
one.  With equal roots the call is a no-op. -/
theorem unite_link_by_rank (du : DU) (ref : Ref) (hI : Inv du ref) (a b : Nat)
    (hpa : present_p du a = true) (hpb : present_p du b = true) (hab : a ≠ b) :
    ∃ du1 du2 r1 r2,
      find du a = (Except.ok r1, du1) ∧
      find du1 b = (Except.ok r2, du2) ∧
      du2.rank = du.rank ∧
      du2.subset_count = du.subset_count ∧
      (r1 = r2 → unite du a b = (Except.ok (), du2)) ∧
      (r1 ≠ r2 →
        unite du a b = (Except.ok (), link_roots du2 r1 r2) ∧
        (link_roots du2 r1 r2).subset_count + 1 = du.subset_count ∧
        (du2.rank.array.getD r1 0 > du2.rank.array.getD r2 0 →
          (link_roots du2 r1 r2).forest.array =
            du2.forest.array.set r2 (r1 : Int) ∧
          (link_roots du2 r1 r2).rank = du2.rank) ∧
        (du2.rank.array.getD r1 0 < du2.rank.array.getD r2 0 →
          (link_roots du2 r1 r2).forest.array =
            du2.forest.array.set r1 (r2 : Int) ∧
          (link_roots du2 r1 r2).rank = du2.rank) ∧
        (du2.rank.array.getD r1 0 = du2.rank.array.getD r2 0 →
          (link_roots du2 r1 r2).forest.array =
            du2.forest.array.set r2 (r1 : Int) ∧
          (link_roots du2 r1 r2).rank.array =
            du2.rank.array.set r1 (du2.rank.array.getD r1 0 + 1) ∧
          (link_roots du2 r1 r2).rank.array.getD r1 0 =
            du2.rank.array.getD r1 0 + 1)) := by
  obtain ⟨du1, r1, hfind1, hrootDa, hrank1, hcount1, hdv1, hInv1, hrpres1, hpresIff1,
    hlen1, hroots1⟩ := find_spec du ref hI a hpa
  have hpb1 : present_p du1 b = true :=
    (present_p_iff du1 b).mpr ((hpresIff1 b).mpr ((present_p_iff du b).mp hpb))
  obtain ⟨du2, r2, hfind2, hrootDb1, hrank2, hcount2, hdv2, hInv2, hrpres2, hpresIff2,
    hlen2, hroots2⟩ := find_spec du1 ref hInv1 b hpb1
  have hunite : unite du a b =
      (if r1 = r2 then (Except.ok (), du2)
        else (Except.ok (), link_roots du2 r1 r2)) := by
    unfold unite
    simp only [hpa, hpb, Bool.not_true, Bool.false_eq_true, if_false, if_neg hab]
    rw [hfind1]
    show (match find du1 b with
      | (Except.ok root2, du2') =>
        if r1 = root2 then (Except.ok (), du2')
        else (Except.ok (), link_roots du2' r1 root2)
      | (Except.error e, du2') => (Except.error e, du2')) = _
    rw [hfind2]
  have hpFa : presF du.forest.array a := (present_p_iff du a).mp hpa
  have hIc := hI
  obtain ⟨hdvI, hrdvI, hrlI, hpresI, hkeysI, hnodupI, hHI, hLI, hnnegI, hrkbI, hcntI,
    hlabI⟩ := hIc
  obtain ⟨hpr1, hfix1, hlr1⟩ :=
    rootF_props du.forest.array du.rank.array ref ref.length hHI hLI
      (du.forest.array.length + 1) a r1 hpFa hrootDa
  have hpr1f1 : presF du1.forest.array r1 := (hpresIff1 r1).mpr hpr1
  have hp1f2 : presF du2.forest.array r1 := (hpresIff2 r1).mpr hpr1f1
  have hfix1f1 : du1.forest.array.getD r1 0 = (r1 : Int) := (hroots1 r1).mpr hfix1
  have hfix1f2 : du2.forest.array.getD r1 0 = (r1 : Int) := (hroots2 r1).mpr hfix1f1
  have hInv2c := hInv2
  obtain ⟨hdv2', hrdv2', hrl2', hpres2', hkeys2', hnodup2', hH2', hL2', hnneg2',
    hrkb2', hcnt2', hlab2'⟩ := hInv2c
  have hcntpos : 1 ≤ du2.subset_count := by
    rw [hcnt2']
    exact countRoots_pos du2.forest.array r1 hp1f2 hfix1f2
  have hr1len : r1 < du2.rank.array.length := by
    rw [hrl2']
    exact hp1f2.1
  refine ⟨du1, du2, r1, r2, hfind1, hfind2, hrank2.trans hrank1,
    hcount2.trans hcount1, ?_, ?_⟩
  · intro h12
    rw [hunite, if_pos h12]
  · intro h12
    have hlc : (link_roots du2 r1 r2).subset_count = du2.subset_count - 1 := by
      unfold link_roots
      split_ifs <;> rfl
    refine ⟨by rw [hunite, if_neg h12], ?_, ?_, ?_, ?_⟩
    · rw [hlc]
      have hd2 : du2.subset_count = du.subset_count := hcount2.trans hcount1
      omega
    · intro hgt
      constructor
      · unfold link_roots
        rw [if_pos hgt]
      · unfold link_roots
        rw [if_pos hgt]
    · intro hlt
      have hne : ¬ du2.rank.array.getD r1 0 = du2.rank.array.getD r2 0 :=
        ne_of_lt hlt
      constructor
      · unfold link_roots
        rw [if_neg (lt_asymm hlt), if_neg hne]
      · unfold link_roots
        rw [if_neg (lt_asymm hlt), if_neg hne]
    · intro heq
      have hngt : ¬ du2.rank.array.getD r1 0 > du2.rank.array.getD r2 0 := by
        rw [heq]
        exact lt_irrefl _
      refine ⟨?_, ?_, ?_⟩
      · unfold link_roots
        rw [if_neg hngt, if_pos heq]
      · unfold link_roots
        rw [if_neg hngt, if_pos heq]
      · unfold link_roots
        rw [if_neg hngt, if_pos heq]
        show (du2.rank.array.set r1 (du2.rank.array.getD r1 0 + 1)).getD r1 0 = _
        exact getD_set_self du2.rank.array r1 0 _ hr1len

theorem unite_link_by_rank_witness :
    present_p (runDU 2 []) 0 = true ∧ present_p (runDU 2 []) 1 = true ∧
    (0 : Nat) ≠ 1 ∧
    (∃ du1 du2 r1 r2,
      find (runDU 2 []) 0 = (Except.ok r1, du1) ∧
      find du1 1 = (Except.ok r2, du2) ∧
      du2.rank = (runDU 2 []).rank ∧
      du2.subset_count = (runDU 2 []).subset_count ∧
      (r1 = r2 → unite (runDU 2 []) 0 1 = (Except.ok (), du2)) ∧
      (r1 ≠ r2 →
        unite (runDU 2 []) 0 1 = (Except.ok (), link_roots du2 r1 r2) ∧
        (link_roots du2 r1 r2).subset_count + 1 = (runDU 2 []).subset_count ∧
        (du2.rank.array.getD r1 0 > du2.rank.array.getD r2 0 →
          (link_roots du2 r1 r2).forest.array =
            du2.forest.array.set r2 (r1 : Int) ∧
          (link_roots du2 r1 r2).rank = du2.rank) ∧
        (du2.rank.array.getD r1 0 < du2.rank.array.getD r2 0 →
          (link_roots du2 r1 r2).forest.array =
            du2.forest.array.set r1 (r2 : Int) ∧
          (link_roots du2 r1 r2).rank = du2.rank) ∧
        (du2.rank.array.getD r1 0 = du2.rank.array.getD r2 0 →
          (link_roots du2 r1 r2).forest.array =
            du2.forest.array.set r2 (r1 : Int) ∧
          (link_roots du2 r1 r2).rank.array =
            du2.rank.array.set r1 (du2.rank.array.getD r1 0 + 1) ∧
          (link_roots du2 r1 r2).rank.array.getD r1 0 =
            du2.rank.array.getD r1 0 + 1))) :=
  ⟨by decide, by decide, by decide,
    unite_link_by_rank (runDU 2 []) (runRef 2 []) (runDU_inv 2 []).1 0 1
      (by decide) (by decide) (by decide)⟩

/-- C8: a `make_set` call failing with the duplicate-element error, a `find`
or `unite` call on a reachable structure failing with the unknown-element or
self-union errors, a `query_on` or `update_at` call failing with the range
error, and a `setup` call failing on an invalid size, all detect the error
before any mutation: the returned structure coincides with the one passed in
(for `setup`: its tree and size fields). -/
theorem errors_leave_state_unchanged {V : Type} (n : Nat) (ops : List DUOp)
    (e a b : Nat) (st : SegTree V) (l r idx : Nat) (lf : Nat → V)
    (cmb jc : V → V → V) (size : Int) (ident junk : V) :
    (∀ err, (add_new_element (runDU n ops) e).1 = Except.error err →
      err = DUErr.duplicateElement ∧
      (add_new_element (runDU n ops) e).2 = runDU n ops) ∧
    (∀ err, (find (runDU n ops) e).1 = Except.error err →
      err = DUErr.unknownElement ∧ (find (runDU n ops) e).2 = runDU n ops) ∧
    (∀ err, (unite (runDU n ops) a b).1 = Except.error err →
      (err = DUErr.unknownElement ∨ err = DUErr.selfUnion) ∧
      (unite (runDU n ops) a b).2 = runDU n ops) ∧
    (∀ err, (query_on st l r).1 = Except.error err → (query_on st l r).2 = st) ∧
    (∀ err, (update_at st idx lf).1 = Except.error err →
      (update_at st idx lf).2 = st) ∧
    (∀ err, (setup (create_segment_tree junk jc) cmb lf size ident junk).1 =
        Except.error err →
      (setup (create_segment_tree junk jc) cmb lf size ident junk).2.tree =
        (create_segment_tree junk jc).tree ∧
      (setup (create_segment_tree junk jc) cmb lf size ident junk).2.size =
        (create_segment_tree junk jc).size) := by
  refine ⟨add_new_element_err (runDU n ops) e,
    (findEl_step (runDU n ops) (runRef n ops) (runDU_inv n ops).1 e).2.2,
    (unite_step (runDU n ops) (runRef n ops) (runDU_inv n ops).1 a b).2.2,
    ?_, ?_, ?_⟩
  · intro err _
    unfold query_on
    by_cases h1 : st.size ≤ r
    · simp [h1]
    · simp only [if_neg h1]
      by_cases h2 : r < l
      · simp [h2]
      · simp only [if_neg h2]
        exact determine_val_snd ..
  · intro err herr
    exact update_at_err st idx lf err herr
  · intro err herr
    unfold setup create_segment_tree at herr ⊢
    by_cases h1 : size < 0
    · simp only [if_pos h1]
      exact ⟨trivial, trivial⟩
    · simp only [if_neg h1] at herr ⊢
      by_cases h2 : size.toNat = 0
      · simp only [if_pos h2]
        exact ⟨trivial, h2⟩
      · simp only [if_neg h2] at herr
        have h3 : (Except.ok () : Except STErr Unit) = Except.error err := herr
        exact Except.noConfusion h3

theorem errors_leave_state_unchanged_witness :
    (unite (runDU 1 []) 0 0).1 = Except.error DUErr.selfUnion ∧
    (unite (runDU 1 []) 0 0).2 = runDU 1 [] :=
  ⟨by decide,
    ((errors_leave_state_unchanged 1 [] 0 0 0
        (create_segment_tree (0 : Nat) (fun v _ => v)) 0 0 0 (fun _ => 0)
        (fun v _ => v) (fun v _ => v) 1 0 0).2.2.1
      DUErr.selfUnion (by decide)).2⟩

end DS
